import Mathlib

/-!
Verification development for the avalanche debt-repayment simulator.

The Python sources `cash_flow.py`, `interest.py`, `minimum_payments.py` and
`avalanche.py` are embedded shallowly:

* `Decimal` values become `ℚ` (Python's `Decimal` is exact decimal arithmetic;
  every quantity the program builds stays well inside the default 28-digit
  context, so exact rationals are a faithful model).  `quantize(CENT,
  ROUND_HALF_UP)` becomes `quantCents`, `quantize(Decimal("1"), ROUND_UP)`
  becomes `quantUnitUp`.
* `datetime.date` becomes the `Date` structure (year, month, day) with the
  source's `monthrange`-based month arithmetic; day-count subtraction uses the
  standard days-from-civil ordinal.
* the source's `while current < start: current = advance(current)` loops over
  calendar dates are total only because calendar dates advance; they are
  embedded with an explicit fuel parameter, returning `none` when the fuel is
  exhausted (callers pass ample fuel, and theorems quantify over it).
* a raised `ValueError` carrying a date becomes `Except Date`, and an uncaught
  lookup failure (`KeyError` on an unknown registry tag or debt name) becomes
  `Option.none` at the outermost level.
-/

/-!
Core marks the `Rat` field operations `@[irreducible]`; restoring the default
reducibility lets concrete runs of the embedded program evaluate by `decide`.
-/
attribute [local semireducible] Rat.add Rat.mul Rat.sub Rat.inv


/-! ## Decimal rounding primitives -/

/-- Round a rational to an integer, half away from zero: Python Decimal's
`ROUND_HALF_UP`.  For `0 ≤ x` this is `⌊x + 1/2⌋`; negative values mirror.
The body uses `Rat.num`/`Rat.den` integer arithmetic so that it evaluates
by `norm_num`. -/
def roundHalfUp (x : ℚ) : ℤ :=
  if 0 ≤ x then (2 * x.num + x.den) / (2 * (x.den : ℤ))
  else -((-2 * x.num + x.den) / (2 * (x.den : ℤ)))

/-- Round a rational to an integer, away from zero: Python Decimal's
`ROUND_UP` at integral quantum. -/
def roundAwayUp (x : ℚ) : ℤ :=
  if 0 ≤ x then -(-x.num / (x.den : ℤ)) else x.num / (x.den : ℤ)

/-- Embedding of `value.quantize(Decimal("0.01"), rounding=ROUND_HALF_UP)`. -/
def quantCents (x : ℚ) : ℚ := (roundHalfUp (x * 100) : ℚ) / 100

/-- Embedding of `value.quantize(Decimal("1"), rounding=ROUND_UP)`. -/
def quantUnitUp (x : ℚ) : ℚ := (roundAwayUp x : ℚ)

/-- A rational is a whole number of cents. -/
def IsCents (x : ℚ) : Prop := ∃ n : ℤ, x = (n : ℚ) / 100

/-! ## Calendar (`datetime.date`, `calendar.monthrange`) -/

/-- A calendar date.  The embedding keeps Python's year/month/day fields;
operations mirror the source and assume the in-range representation Python
maintains. -/
structure Date where
  year : ℤ
  month : ℤ
  day : ℤ
  deriving DecidableEq, Repr

/-- Gregorian leap-year test. -/
def isLeap (y : ℤ) : Bool :=
  y % 4 == 0 && (y % 100 != 0 || y % 400 == 0)

/-- Number of days in a month: `calendar.monthrange(year, month)[1]`. -/
def monthLen (y m : ℤ) : ℤ :=
  if m = 2 then (if isLeap y then 29 else 28)
  else if m = 4 ∨ m = 6 ∨ m = 9 ∨ m = 11 then 30
  else 31

/-- Python `date` comparison is lexicographic on (year, month, day). -/
def Date.lt (a b : Date) : Prop :=
  a.year < b.year ∨ (a.year = b.year ∧
    (a.month < b.month ∨ (a.month = b.month ∧ a.day < b.day)))

def Date.le (a b : Date) : Prop := Date.lt a b ∨ a = b

instance (a b : Date) : Decidable (Date.lt a b) := by
  unfold Date.lt; infer_instance

instance (a b : Date) : Decidable (Date.le a b) := by
  unfold Date.le; infer_instance

/-- Embedding of `_add_month` (identical in `avalanche.py`, `interest.py`,
`minimum_payments.py`): one month later, day clamped to the target month's
length. -/
def addMonth (d : Date) : Date :=
  let year := d.year + d.month / 12
  let month := d.month % 12 + 1
  let day := min d.day (monthLen year month)
  ⟨year, month, day⟩

/-- Next calendar day (`d + timedelta(days=1)`). -/
def Date.succ (d : Date) : Date :=
  if d.day < monthLen d.year d.month then ⟨d.year, d.month, d.day + 1⟩
  else if d.month < 12 then ⟨d.year, d.month + 1, 1⟩
  else ⟨d.year + 1, 1, 1⟩

/-- Embedding of `d + timedelta(days=n)` for `n ≥ 0`. -/
def addDays (d : Date) : ℕ → Date
  | 0 => d
  | n + 1 => addDays d.succ n

/-- Days-from-civil ordinal (Howard Hinnant's formula); `(a - b).days` in the
source becomes `dayOrd a - dayOrd b`. -/
def dayOrd (d : Date) : ℤ :=
  let y := if d.month ≤ 2 then d.year - 1 else d.year
  let era := (if 0 ≤ y then y else y - 399) / 400
  let yoe := y - era * 400
  let mp := (d.month + 9) % 12
  let doy := (153 * mp + 2) / 5 + d.day - 1
  let doe := yoe * 365 + yoe / 4 - yoe / 100 + doy
  era * 146097 + doe - 719468

/-! ## Cash-flow projector (`cash_flow.py`) -/

/-- An input dictionary with `amount` and `date` keys (dates are handled
directly; `_parse_date` on ISO strings is the identity at this level). -/
structure CashItem where
  date : Date
  amount : ℚ
  deriving DecidableEq, Repr

/-- Embedding of `cash_flow.CashEvent`: a dated signed cash amount. -/
structure CashEvent where
  date : Date
  amount : ℚ
  deriving DecidableEq, Repr

/-- Sort flag used by `_build_events`: the Python key is
`(e.date, e.amount < 0)`, so on one day non-negative amounts come first. -/
def CashEvent.negFlag (e : CashEvent) : ℕ := if e.amount < 0 then 1 else 0

/-- The total preorder `_build_events` sorts by. -/
def CashEvent.keyLe (a b : CashEvent) : Prop :=
  Date.lt a.date b.date ∨ (a.date = b.date ∧ a.negFlag ≤ b.negFlag)

instance : DecidableRel CashEvent.keyLe := fun a b => by
  unfold CashEvent.keyLe; infer_instance

instance : IsTotal CashEvent CashEvent.keyLe where
  total a b := by
    have tri : ∀ (x y : Date), Date.lt x y ∨ x = y ∨ Date.lt y x := by
      intro x y
      rcases x with ⟨xy, xm, xd⟩
      rcases y with ⟨yy, ym, yd⟩
      unfold Date.lt
      simp only [Date.mk.injEq]
      omega
    unfold CashEvent.keyLe
    rcases tri a.date b.date with h | h | h
    · exact Or.inl (Or.inl h)
    · rcases Nat.le_total a.negFlag b.negFlag with h2 | h2
      · exact Or.inl (Or.inr ⟨h, h2⟩)
      · exact Or.inr (Or.inr ⟨h.symm, h2⟩)
    · exact Or.inr (Or.inl h)

instance : IsTrans CashEvent CashEvent.keyLe where
  trans a b c h1 h2 := by
    have ltt : ∀ (x y z : Date), Date.lt x y → Date.lt y z → Date.lt x z := by
      intro x y z
      rcases x with ⟨xy, xm, xd⟩
      rcases y with ⟨yy, ym, yd⟩
      rcases z with ⟨zy, zm, zd⟩
      unfold Date.lt
      omega
    unfold CashEvent.keyLe at *
    rcases h1 with h1 | ⟨e1, f1⟩
    · rcases h2 with h2 | ⟨e2, f2⟩
      · exact Or.inl (ltt _ _ _ h1 h2)
      · exact Or.inl (e2 ▸ h1)
    · rcases h2 with h2 | ⟨e2, f2⟩
      · exact Or.inl (e1 ▸ h2)
      · exact Or.inr ⟨e1.trans e2, Nat.le_trans f1 f2⟩

/-- Embedding of `cash_flow._build_events`: bills negated, incomes positive,
all quantized to cents, then stably sorted by `(date, amount < 0)`.
Python's stable `list.sort` is modelled by `List.insertionSort`, which is
also stable. -/
def buildCashEvents (bills incomes : List CashItem) : List CashEvent :=
  let evs : List CashEvent :=
    bills.map (fun i => ⟨i.date, quantCents i.amount * (-1)⟩) ++
      incomes.map (fun i => ⟨i.date, quantCents i.amount⟩)
  List.insertionSort CashEvent.keyLe evs

/-- The running fold of `projected_min_balance`: carries the running balance,
minimum so far and first negative date. -/
def pmbLoop : ℚ → ℚ → Option Date → List CashEvent → ℚ × Option Date
  | _, minb, nd, [] => (minb, nd)
  | running, minb, nd, e :: es =>
    let r2 := quantCents (running + e.amount)
    let minb2 := if r2 < minb then r2 else minb
    let nd2 := match nd with
      | none => if r2 < 0 then some e.date else none
      | some d => some d
    pmbLoop r2 minb2 nd2 es

/-- Embedding of `cash_flow.projected_min_balance`. -/
def projected_min_balance (initial : ℚ) (bills incomes : List CashItem) :
    ℚ × Option Date :=
  let balance := quantCents initial
  pmbLoop balance balance none (buildCashEvents bills incomes)

/-- Embedding of `cash_flow.max_safe_payment`. -/
def max_safe_payment (initial : ℚ) (bills incomes : List CashItem) : ℚ :=
  max 0 (quantCents (projected_min_balance initial bills incomes).1)

/-- Specification-side list of running balances (plain cumulative sums). -/
def runVals (q : ℚ) : List CashEvent → List ℚ
  | [] => []
  | e :: es => (q + e.amount) :: runVals (q + e.amount) es

/-- Specification-side first date the running balance goes below zero. -/
def firstNegDate (q : ℚ) : List CashEvent → Option Date
  | [] => none
  | e :: es =>
    if q + e.amount < 0 then some e.date else firstNegDate (q + e.amount) es

/-! ## Debts and minimum-payment formulas (`minimum_payments.py`) -/

/-- The keys of `min_payment_args` that the registered formulas read.  The
Python dict may hold other keys, but only these five are ever consulted, and
`dict.get(key, 0)` becomes `Option.getD _ 0`. -/
structure MinPaymentArgs where
  unpaid_daily_cash : Option ℚ := none
  interest_billed : Option ℚ := none
  past_due : Option ℚ := none
  financing_balance : Option ℚ := none
  installment_due : Option ℚ := none
  deriving DecidableEq, Repr

/-- Embedding of the `avalanche.Debt` dataclass. -/
structure Debt where
  name : String
  balance : ℚ
  apr : ℚ
  minimum_payment : ℚ
  due_date : Option Date := none
  paid_off_date : Option Date := none
  interest_accrued : ℚ := 0
  interest_buffer : ℚ := 0
  interest_charges : ℚ := 0
  min_payment_formula : Option String := none
  min_payment_args : MinPaymentArgs := {}
  balance_subject_to_interest : ℚ := 0
  grace_charges : List (Date × ℚ) := []
  interest_method : String := "credit_card"
  deriving DecidableEq, Repr

/-- The repeated source loop `while next_due <= as_of: next_due =
_add_month(next_due)`, with fuel. -/
def advancePastDate : ℕ → Date → Date → Option Date
  | 0, d, limit => if Date.le d limit then none else some d
  | f + 1, d, limit =>
    if Date.le d limit then advancePastDate f (addMonth d) limit else some d

/-- The balance-projection step of `minimum_payments.credit_card`: the
balance carried forward to the next due date (one period of simple daily
interest when the gap is positive). -/
def creditCardProjBalance (fuel : ℕ) (debt : Debt) (as_of : Date) : Option ℚ :=
  match debt.due_date with
  | some due =>
    if 0 < debt.apr then do
      let next_due ← advancePastDate fuel due as_of
      let days := dayOrd next_due - dayOrd as_of
      pure (if 0 < days
        then debt.balance + debt.balance * debt.apr / 36500 * (days : ℚ)
        else debt.balance)
    else pure debt.balance
  | none => pure debt.balance

/-- Embedding of `minimum_payments.credit_card`: 1% of the balance projected
to the next due date plus one month's interest, rounded half-up to cents. -/
def credit_card (fuel : ℕ) (debt : Debt) (as_of : Date) : Option ℚ := do
  let balance ← creditCardProjBalance fuel debt as_of
  pure (quantCents (balance * (debt.apr / 1200 + 1 / 100)))

/-- Embedding of `minimum_payments.apple_card` (the `as_of` argument is not
consulted by the source either). -/
def apple_card (debt : Debt) (_as_of : Date) : ℚ :=
  let args := debt.min_payment_args
  let unpaid_daily_cash := args.unpaid_daily_cash.getD 0
  let interest_billed := args.interest_billed.getD 0
  let past_due := args.past_due.getD 0
  let financing_balance := args.financing_balance.getD 0
  let installment_due := args.installment_due.getD 0
  let total_balance := debt.balance
  let regular_balance := total_balance - financing_balance
  let base0 := (regular_balance - unpaid_daily_cash) * (1 / 100) + unpaid_daily_cash
  let base1 := quantUnitUp base0
  let base := max 25 base1
  let payment := base + interest_billed + installment_due + past_due
  if total_balance < payment then total_balance else payment

/-- Embedding of `avalanche.compute_min_payment` with the `FORMULAS`
registry inlined; an unknown tag is the fatal `ValueError` path (`none`). -/
def compute_min_payment (fuel : ℕ) (debt : Debt) (as_of : Date) : Option ℚ :=
  match debt.min_payment_formula with
  | some f =>
    if f = "credit_card" then credit_card fuel debt as_of
    else if f = "apple_card" then some (apple_card debt as_of)
    else none
  | none => some debt.minimum_payment

/-! ## Interest methods (`interest.py`) -/

/-- Embedding of `interest.credit_card_add_charge`. -/
def credit_card_add_charge (debt : Debt) (amount : ℚ) (_ch_date : Date) : Debt :=
  { debt with balance_subject_to_interest :=
      debt.balance_subject_to_interest + amount }

/-- Embedding of `interest.credit_card_daily`. -/
def credit_card_daily (debt : Debt) (_current : Date) : Debt :=
  if 0 < debt.balance_subject_to_interest ∧ 0 < debt.apr then
    let interest := debt.balance_subject_to_interest * debt.apr / 36500
    { debt with interest_buffer := debt.interest_buffer + interest,
                interest_accrued := debt.interest_accrued + interest }
  else debt

/-- Embedding of `interest.credit_card_month_end`; returns the updated debt
together with the billed amount. -/
def credit_card_month_end (debt : Debt) (_current : Date) : Debt × ℚ :=
  if 0 < debt.interest_buffer then
    ({ debt with interest_buffer := 0 }, quantCents debt.interest_buffer)
  else (debt, 0)

/-- Embedding of `interest.apple_card_add_charge`: a charge made while no
principal bears interest joins the pending grace list, otherwise it is added
to interest-bearing principal. -/
def apple_card_add_charge (debt : Debt) (amount : ℚ) (ch_date : Date) : Debt :=
  if debt.balance_subject_to_interest = 0 then
    { debt with grace_charges := debt.grace_charges ++ [(ch_date, amount)] }
  else
    { debt with balance_subject_to_interest :=
        debt.balance_subject_to_interest + amount }

/-- Embedding of `interest.apple_card_daily`: generic daily accrual, then on
the due date every pending charge accrues retroactive interest for
`(current - charge).days + 1` days, folds into interest-bearing principal,
and the due date advances one month. -/
def apple_card_daily (debt : Debt) (current : Date) : Debt :=
  let debt := credit_card_daily debt current
  if debt.due_date = some current ∧ debt.grace_charges ≠ [] then
    let s := debt.grace_charges.foldl
      (fun (st : ℚ × ℚ × ℚ) (c : Date × ℚ) =>
        (st.1 + c.2 * debt.apr / 36500
            * ((dayOrd current - dayOrd c.1 + 1 : ℤ) : ℚ),
          st.2.1 + c.2 * debt.apr / 36500
            * ((dayOrd current - dayOrd c.1 + 1 : ℤ) : ℚ),
          st.2.2 + c.2))
      (debt.interest_buffer, debt.interest_accrued,
        debt.balance_subject_to_interest)
    { debt with interest_buffer := s.1, interest_accrued := s.2.1,
                balance_subject_to_interest := s.2.2,
                grace_charges := [], due_date := some (addMonth current) }
  else debt

/-- Embedding of `interest.apple_card_month_end`. -/
def apple_card_month_end (debt : Debt) (current : Date) : Debt × ℚ :=
  credit_card_month_end debt current

/-- Dispatch on `INTEREST_METHODS[debt.interest_method].add_charge`; an
unregistered tag is Python's fatal `KeyError` (`none`). -/
def imAddCharge (debt : Debt) (amount : ℚ) (d : Date) : Option Debt :=
  if debt.interest_method = "credit_card" then
    some (credit_card_add_charge debt amount d)
  else if debt.interest_method = "apple_card" then
    some (apple_card_add_charge debt amount d)
  else none

/-- Dispatch on `INTEREST_METHODS[debt.interest_method].daily`. -/
def imDaily (debt : Debt) (d : Date) : Option Debt :=
  if debt.interest_method = "credit_card" then some (credit_card_daily debt d)
  else if debt.interest_method = "apple_card" then some (apple_card_daily debt d)
  else none

/-- Dispatch on `INTEREST_METHODS[debt.interest_method].month_end`. -/
def imMonthEnd (debt : Debt) (d : Date) : Option (Debt × ℚ) :=
  if debt.interest_method = "credit_card" then
    some (credit_card_month_end debt d)
  else if debt.interest_method = "apple_card" then
    some (apple_card_month_end debt d)
  else none

/-! ## Specification-side formulas and example inputs -/

/-- Total retroactive interest of a pending grace list at date `cur`: each
charge accrues for `(cur - charge_date).days + 1` days. -/
def retroSum (apr : ℚ) (cur : Date) (l : List (Date × ℚ)) : ℚ :=
  (l.map (fun c => c.2 * apr / 36500 * ((dayOrd cur - dayOrd c.1 + 1 : ℤ) : ℚ))).sum

/-- Total amount of a pending grace list. -/
def chargeSum (l : List (Date × ℚ)) : ℚ := (l.map (fun c => c.2)).sum

/-- The Apple-Card minimum formula exactly as claim C10 words it (no floor):
one percent of (balance net of financing, minus the unpaid daily-cash
adjustment) plus that adjustment, rounded up to a whole unit, plus
installments, billed interest and past-due amounts, capped at the balance. -/
def appleCardClaimedFormula (debt : Debt) : ℚ :=
  let args := debt.min_payment_args
  let unpaid_daily_cash := args.unpaid_daily_cash.getD 0
  let interest_billed := args.interest_billed.getD 0
  let past_due := args.past_due.getD 0
  let financing_balance := args.financing_balance.getD 0
  let installment_due := args.installment_due.getD 0
  let total_balance := debt.balance
  let regular_balance := total_balance - financing_balance
  let base0 := (regular_balance - unpaid_daily_cash) * (1 / 100) + unpaid_daily_cash
  let base := quantUnitUp base0
  let payment := base + interest_billed + installment_due + past_due
  if total_balance < payment then total_balance else payment

/-- The Apple-Card minimum formula as amended: identical to the claimed
formula except that the rounded one-percent base is floored at 25 whole
units before the additions and the cap. -/
def appleCardAmendedFormula (debt : Debt) : ℚ :=
  let args := debt.min_payment_args
  let unpaid_daily_cash := args.unpaid_daily_cash.getD 0
  let interest_billed := args.interest_billed.getD 0
  let past_due := args.past_due.getD 0
  let financing_balance := args.financing_balance.getD 0
  let installment_due := args.installment_due.getD 0
  let total_balance := debt.balance
  let regular_balance := total_balance - financing_balance
  let base0 := (regular_balance - unpaid_daily_cash) * (1 / 100) + unpaid_daily_cash
  let base1 := quantUnitUp base0
  let base := max 25 base1
  let payment := base + interest_billed + installment_due + past_due
  if total_balance < payment then total_balance else payment

/-- A revolving debt with an annual rate high enough that the generic
minimum-payment formula exceeds the balance. -/
def debtC5 : Debt :=
  { name := "card", balance := 100, apr := 2400, minimum_payment := 0 }

/-- A zero-rate debt used to witness the amended minimum-payment cap. -/
def debtW5 : Debt :=
  { name := "plain", balance := 50, apr := 0, minimum_payment := 0 }

/-- A grace-period debt that already has interest-bearing principal. -/
def debtC7 : Debt :=
  { name := "apple", balance := 150, apr := 10, minimum_payment := 0,
    balance_subject_to_interest := 100, interest_method := "apple_card" }

/-- A grace-period debt with no interest-bearing principal. -/
def debtW7 : Debt :=
  { name := "apple2", balance := 40, apr := 12, minimum_payment := 0,
    balance_subject_to_interest := 0, interest_method := "apple_card" }

/-- A revolving debt used to witness the simple-accrual billing law. -/
def debtW9 : Debt :=
  { name := "rev", balance := 200, apr := 20, minimum_payment := 0,
    balance_subject_to_interest := 200 }

/-- A small-balance Apple-Card debt exposing the 25-unit minimum floor. -/
def debtC10 : Debt :=
  { name := "small", balance := 10, apr := 25, minimum_payment := 0,
    min_payment_formula := some "apple_card" }

/-! ## Daily avalanche scheduler (`avalanche.py`) -/

/-- Event and schedule-entry kinds.  The source uses string tags
`"paycheck"`, `"bill"`, `"debt_min"`, `"debt_add"`, `"goal"` and `"extra"`
(the last only in schedule entries). -/
inductive EType where
  | paycheck
  | bill
  | debt_min
  | debt_add
  | goal
  | extra
  deriving DecidableEq, Repr

/-- Embedding of `avalanche.Event`. -/
structure Event where
  date : Date
  type : EType
  amount : ℚ
  name : String
  debt : Option String := none
  deriving DecidableEq, Repr

/-- One entry of the returned schedule (a dict in the source). -/
structure ScheduleEntry where
  date : Date
  type : EType
  description : String
  amount : ℚ
  balance : ℚ
  deriving DecidableEq, Repr

/-- A paycheck input dict; `frequency` is stored already lower-cased, as the
source lower-cases it on read. -/
structure PaycheckSpec where
  name : String := "Paycheck"
  amount : ℚ
  date : Date
  frequency : String := "monthly"
  deriving DecidableEq, Repr

/-- A bill input dict; a `debt` key turns occurrences into `debt_add`s. -/
structure BillSpec where
  name : String := "Bill"
  amount : ℚ
  date : Date
  debt : Option String := none
  deriving DecidableEq, Repr

/-- A goal input dict. -/
structure GoalSpec where
  name : String := "Goal"
  amount : ℚ
  date : Date
  deriving DecidableEq, Repr

/-- A debt input dict for `daily_avalanche_schedule`; the leftover keys that
feed `min_payment_args` are the five the formulas read. -/
structure DebtInput where
  name : String
  balance : ℚ
  apr : ℚ
  minimum_payment : ℚ := 0
  due_date : Option Date := none
  min_payment_formula : Option String := none
  interest_method : String := "credit_card"
  args : MinPaymentArgs := {}
  deriving DecidableEq, Repr

/-- One entry of the returned debts summary. -/
structure DebtResult where
  name : String
  balance : ℚ
  interest_accrued : ℚ
  interest_charges : ℚ
  next_due_date : Option Date
  paid_off_date : Option Date
  deriving DecidableEq, Repr

/-- Embedding of `_advance_paycheck`. -/
def advancePaycheck (current : Date) (freq : String) (firstDay : ℤ) : Date :=
  if freq = "weekly" then addDays current 7
  else if freq = "biweekly" then addDays current 14
  else if freq = "semi-monthly" then
    let secondDay := min (firstDay + 15) (monthLen current.year current.month)
    if current.day = firstDay ∧ secondDay ≠ firstDay then
      { current with day := secondDay }
    else
      let nextMonth := addMonth { current with day := 1 }
      { nextMonth with
        day := min firstDay (monthLen nextMonth.year nextMonth.month) }
  else addMonth current

/-- The generator pattern `while current < start: current = advance(current)`
with fuel. -/
def skipUntil : ℕ → (Date → Date) → Date → Date → Option Date
  | 0, _, current, start =>
    if Date.lt current start then none else some current
  | f + 1, adv, current, start =>
    if Date.lt current start then skipUntil f adv (adv current) start
    else some current

/-- The generator pattern `while current <= end: emit; current = advance`
with fuel. -/
def emitWhile : ℕ → (Date → Date) → (Date → Event) → Date → Date →
    Option (List Event)
  | 0, _, _, current, endD => if Date.le current endD then none else some []
  | f + 1, adv, mk, current, endD =>
    if Date.le current endD then
      (emitWhile f adv mk (adv current) endD).map (fun evs => mk current :: evs)
    else some []

/-- Sorting relation of `_build_events`: `events.sort(key=lambda e: e.date)`. -/
def Event.dateLe (a b : Event) : Prop := Date.le a.date b.date

instance : DecidableRel Event.dateLe := fun a b => by
  unfold Event.dateLe; infer_instance

instance : IsTotal Event Event.dateLe where
  total a b := by
    have tot : ∀ (x y : Date), Date.le x y ∨ Date.le y x := by
      intro x y
      rcases x with ⟨xy, xm, xd⟩
      rcases y with ⟨yy, ym, yd⟩
      unfold Date.le Date.lt
      simp only [Date.mk.injEq]
      omega
    exact tot a.date b.date

instance : IsTrans Event Event.dateLe where
  trans a b c h1 h2 := by
    have ltr : ∀ (x y z : Date), Date.le x y → Date.le y z → Date.le x z := by
      intro x y z
      rcases x with ⟨xy, xm, xd⟩
      rcases y with ⟨yy, ym, yd⟩
      rcases z with ⟨zy, zm, zd⟩
      unfold Date.le Date.lt
      simp only [Date.mk.injEq]
      omega
    exact ltr _ _ _ h1 h2

/-- Paycheck expansion of `_build_events`. -/
def genPaychecks (fuel : ℕ) (start endD : Date) :
    List PaycheckSpec → Option (List Event)
  | [] => some []
  | p :: ps => do
    let firstDay := p.date.day
    let c ← skipUntil fuel
      (fun c => advancePaycheck c p.frequency firstDay) p.date start
    let evs ← emitWhile fuel (fun c => advancePaycheck c p.frequency firstDay)
      (fun d => { date := d, type := .paycheck, amount := p.amount,
                  name := p.name })
      c endD
    let rest ← genPaychecks fuel start endD ps
    pure (evs ++ rest)

/-- Bill expansion of `_build_events`: a `debt` key makes occurrences
`debt_add` principal increases instead of cash outflows. -/
def genBills (fuel : ℕ) (start endD : Date) :
    List BillSpec → Option (List Event)
  | [] => some []
  | b :: bs => do
    let c ← skipUntil fuel addMonth b.date start
    let evs ←
      match b.debt with
      | some dn =>
        emitWhile fuel addMonth
          (fun d => { date := d, type := .debt_add, amount := b.amount,
                      name := b.name, debt := some dn }) c endD
      | none =>
        emitWhile fuel addMonth
          (fun d => { date := d, type := .bill, amount := b.amount,
                      name := b.name }) c endD
    let rest ← genBills fuel start endD bs
    pure (evs ++ rest)

/-- Minimum-payment expansion of `_build_events`: only debts with a due date
and a positive minimum generate events. -/
def genDebtMins (fuel : ℕ) (start endD : Date) :
    List Debt → Option (List Event)
  | [] => some []
  | d :: ds => do
    let evs ←
      match d.due_date with
      | some due =>
        if d.minimum_payment ≤ 0 then pure []
        else do
          let c ← skipUntil fuel addMonth due start
          emitWhile fuel addMonth
            (fun dd => { date := dd, type := .debt_min,
                         amount := d.minimum_payment, name := d.name,
                         debt := some d.name }) c endD
      | none => pure []
    let rest ← genDebtMins fuel start endD ds
    pure (evs ++ rest)

/-- Embedding of `_build_events`: expand paychecks, bills (plain or
debt-linked), in-window goals, and minimum-payment events for debts with a
due date and a positive minimum, then stably sort by date. -/
def buildEvents (fuel : ℕ) (paychecks : List PaycheckSpec)
    (bills : List BillSpec) (goals : List GoalSpec) (debts : List Debt)
    (start endD : Date) : Option (List Event) := do
  let pEvents ← genPaychecks fuel start endD paychecks
  let bEvents ← genBills fuel start endD bills
  let gEvents := goals.filterMap (fun g =>
    if Date.le start g.date ∧ Date.le g.date endD then
      some { date := g.date, type := .goal, amount := g.amount, name := g.name }
    else none)
  let dEvents ← genDebtMins fuel start endD debts
  let events := pEvents ++ bEvents ++ gEvents ++ dEvents
  pure (List.insertionSort Event.dateLe events)

/-- Simulation state carried across days: current cash, debts, the remaining
(not yet consumed) portion of the in-place event list, the schedule log so
far, and the first recorded shortfall date. -/
structure SimState where
  balance : ℚ
  debts : List Debt
  events : List Event
  sched : List ScheduleEntry
  negHit : Option Date
  deriving DecidableEq, Repr

/-- Lookup `debt_lookup[name]`. -/
def findDebt (debts : List Debt) (n : String) : Option Debt :=
  debts.find? (fun d => d.name = n)

/-- Write back a mutated debt object (the source mutates through the lookup
dict; with distinct names this is the first list entry with that name). -/
def updateDebt : List Debt → String → Debt → List Debt
  | [], _, _ => []
  | d :: ds, n, d2 => if d.name = n then d2 :: ds else d :: updateDebt ds n d2

/-- The source's grace-payment loop `while remaining > 0 and
debt.grace_charges: ...`.  When the head charge is only partially paid,
`remaining` necessarily becomes zero (the applied amount was `remaining`),
so the loop exits; the embedding returns directly in that branch. -/
def payGraceLoop : ℚ → List (Date × ℚ) → List (Date × ℚ)
  | _, [] => []
  | remaining, (chd, amt) :: rest =>
    if 0 < remaining then
      let applied := min remaining amt
      if amt - applied = 0 then payGraceLoop (remaining - applied) rest
      else (chd, amt - applied) :: rest
    else (chd, amt) :: rest

/-- The payment-application block shared by `debt_min` handling and the
extra avalanche payment: reduce the balance, then soak the payment first
into billed interest, then interest-bearing principal, then oldest pending
grace charges. -/
def applyPaymentToDebt (debt : Debt) (payment : ℚ) : Debt :=
  let remaining := payment
  let interest_pay := min remaining debt.interest_charges
  let remaining := remaining - interest_pay
  let principal_pay := min remaining debt.balance_subject_to_interest
  let remaining := remaining - principal_pay
  { debt with
      balance := debt.balance - payment,
      interest_charges := debt.interest_charges - interest_pay,
      balance_subject_to_interest :=
        debt.balance_subject_to_interest - principal_pay,
      grace_charges := payGraceLoop remaining debt.grace_charges }

/-- The source's patch-or-insert scan over the not-yet-consumed event list:
rewrite the amount of the matching future `debt_min` event, or insert a new
one in date-sorted position, or append at the end. -/
def patchMinEvents : List Event → Date → ℚ → String → List Event
  | [], next_due, new_min, dname =>
    [{ date := next_due, type := .debt_min, amount := new_min, name := dname,
       debt := some dname }]
  | ev :: rest, next_due, new_min, dname =>
    if ev.date = next_due ∧ ev.type = .debt_min ∧ ev.debt.getD ev.name = dname
    then { ev with amount := new_min } :: rest
    else if Date.lt next_due ev.date then
      { date := next_due, type := .debt_min, amount := new_min, name := dname,
        debt := some dname } :: ev :: rest
    else ev :: patchMinEvents rest next_due new_min dname

/-- The recompute-minimum-and-patch block shared by the `debt_add` handler
and month-end billing. -/
def recomputeAndPatch (fuel : ℕ) (debt : Debt) (current : Date)
    (events : List Event) : Option (Debt × List Event) := do
  let new_min ← compute_min_payment fuel debt current
  match debt.due_date with
  | some due =>
    if 0 < new_min then do
      let next_due ← advancePastDate fuel due current
      pure ({ debt with minimum_payment := new_min },
        patchMinEvents events next_due new_min debt.name)
    else pure (debt, events)
  | none => pure (debt, events)

/-- Apply one income event: cash increases and an entry is logged. -/
def applyPaycheck (s : SimState) (ev : Event) : SimState :=
  let balance := s.balance + ev.amount
  { s with
    balance := balance,
    sched := s.sched ++ [{ date := ev.date,
                           type := .paycheck,
                           description := ev.name,
                           amount := ev.amount,
                           balance := balance }] }

/-- The common outflow tail: subtract the payment from cash, raise (non
debug) or record (debug) a shortfall, and log the entry. -/
def finishOutflow (debug : Bool) (s : SimState) (ev : Event) (payment : ℚ)
    (debts : List Debt) : Except Date SimState :=
  let balance := s.balance - payment
  if balance < 0 ∧ ¬ debug then .error ev.date
  else
    .ok { s with
      balance := balance,
      debts := debts,
      negHit := if balance < 0 ∧ s.negHit = none then some ev.date
        else s.negHit,
      sched := s.sched ++ [{ date := ev.date,
                             type := ev.type,
                             description := ev.name,
                             amount := -payment,
                             balance := balance }] }

/-- Apply one non-income event of the current day. -/
def applyOther (fuel : ℕ) (debug : Bool) (today : Date) (s : SimState)
    (ev : Event) : Option (Except Date SimState) :=
  match ev.type with
  | .debt_add => do
    let n ← ev.debt
    let debt ← findDebt s.debts n
    let debt := { debt with balance := debt.balance + ev.amount }
    let debt ← imAddCharge debt ev.amount ev.date
    let (debt, events) ← recomputeAndPatch fuel debt today s.events
    pure (.ok { s with
      debts := updateDebt s.debts n debt,
      events := events,
      sched := s.sched ++ [{ date := ev.date,
                             type := ev.type,
                             description := ev.name,
                             amount := ev.amount,
                             balance := s.balance }] })
  | .debt_min => do
    let n := ev.debt.getD ev.name
    let debt ← findDebt s.debts n
    let payment := min ev.amount debt.balance
    if payment ≤ 0 then pure (.ok s)
    else
      let debt := applyPaymentToDebt debt payment
      let debt :=
        if debt.balance ≤ 0 ∧ debt.paid_off_date = none then
          { debt with paid_off_date := some ev.date }
        else debt
      pure (finishOutflow debug s ev payment (updateDebt s.debts n debt))
  | _ => pure (finishOutflow debug s ev ev.amount s.debts)

/-- Apply the day's non-income events in order, short-circuiting on error. -/
def applyOthers (fuel : ℕ) (debug : Bool) (today : Date) :
    SimState → List Event → Option (Except Date SimState)
  | s, [] => some (.ok s)
  | s, ev :: rest => do
    match ← applyOther fuel debug today s ev with
    | .error d => pure (.error d)
    | .ok s2 => applyOthers fuel debug today s2 rest

/-- One entry of the `simulated_balances` / `simulated_interest` dicts used
to build the projector's view of the remaining events (the APR is copied in
since `debt_lookup[name].apr` never changes during the scan). -/
structure SimBal where
  name : String
  bal : ℚ
  intr : ℚ
  apr : ℚ
  deriving DecidableEq, Repr

def initSims (debts : List Debt) : List SimBal :=
  debts.map (fun d =>
    { name := d.name, bal := d.balance, intr := d.interest_charges,
      apr := d.apr })

def simFind (l : List SimBal) (n : String) : Option SimBal :=
  l.find? (fun e => e.name = n)

def simUpdate : List SimBal → String → SimBal → List SimBal
  | [], _, _ => []
  | e :: es, n, e2 => if e.name = n then e2 :: es else e :: simUpdate es n e2

/-- Accrue `delta` days of simple interest on every simulated balance. -/
def simAccrue (delta : ℤ) (l : List SimBal) : List SimBal :=
  l.map (fun e =>
    if 0 < e.bal - e.intr ∧ 0 < e.apr then
      { e with intr := e.intr + (e.bal - e.intr) * e.apr / 36500 * (delta : ℚ) }
    else e)

/-- Remove the first pending-minimum entry for `n`, returning its value or
the default (`pending_min.pop(name, fev.amount)`). -/
def pendPop : List (String × ℚ) → String → ℚ → ℚ × List (String × ℚ)
  | [], _, dflt => (dflt, [])
  | (m, v) :: rest, n, dflt =>
    if m = n then (v, rest)
    else
      let r := pendPop rest n dflt
      (r.1, (m, v) :: r.2)

/-- Replace or append a pending-minimum entry (`pending_min[name] = v`). -/
def pendSet : List (String × ℚ) → String → ℚ → List (String × ℚ)
  | [], n, v => [(n, v)]
  | (m, w) :: rest, n, v =>
    if m = n then (m, v) :: rest else (m, w) :: pendSet rest n v

/-- Accumulator of the remaining-event scan that feeds the projector. -/
structure FutureAcc where
  futBills : List CashItem
  futIncomes : List CashItem
  sims : List SimBal
  pend : List (String × ℚ)
  lastDate : Date
  deriving Repr

/-- Embedding of the `for fev in future_events` scan (avalanche.py):
accrue simulated interest between events, project paychecks as incomes,
simulate `debt_add`s and recompute their pending minimums, emit `debt_min`
outflows at the pending or scheduled amount while reducing the simulated
balance, and emit bills and goals as outflows. -/
def futureLoop (fuel : ℕ) (debts : List Debt) :
    FutureAcc → List Event → Option (List CashItem × List CashItem)
  | acc, [] => some (acc.futBills, acc.futIncomes)
  | acc, fev :: rest =>
    let delta := dayOrd fev.date - dayOrd acc.lastDate
    let acc := if 0 < delta then
        { acc with sims := simAccrue delta acc.sims, lastDate := fev.date }
      else acc
    match fev.type with
    | .paycheck =>
      futureLoop fuel debts
        { acc with futIncomes :=
            acc.futIncomes ++ [{ date := fev.date, amount := fev.amount }] }
        rest
    | .debt_add => do
      let n ← fev.debt
      let e ← simFind acc.sims n
      let e := { e with bal := e.bal + fev.amount }
      let base ← findDebt debts n
      let temp : Debt :=
        { name := n, balance := e.bal, apr := base.apr, minimum_payment := 0,
          due_date := base.due_date,
          min_payment_formula := base.min_payment_formula,
          min_payment_args := base.min_payment_args,
          balance_subject_to_interest := e.bal }
      let pm ← compute_min_payment fuel temp fev.date
      futureLoop fuel debts
        { acc with
          sims := simUpdate acc.sims n e,
          pend := pendSet acc.pend n pm }
        rest
    | .debt_min => do
      let n := fev.debt.getD fev.name
      let e ← simFind acc.sims n
      if e.bal ≤ 0 then futureLoop fuel debts acc rest
      else
        let (amount, pend) := pendPop acc.pend n fev.amount
        let interest_pay := min amount e.intr
        let e := { e with intr := e.intr - interest_pay,
                          bal := max 0 (e.bal - amount) }
        futureLoop fuel debts
          { acc with
            futBills :=
              acc.futBills ++ [{ date := fev.date, amount := amount }],
            sims := simUpdate acc.sims n e,
            pend := pend }
          rest
    | _ =>
      futureLoop fuel debts
        { acc with futBills :=
            acc.futBills ++ [{ date := fev.date, amount := fev.amount }] }
        rest

/-- Python's `max(active_debts, key=lambda d: d.apr)` composed with the
`balance > 0` filter, as an index into the debts list: the first
positive-balance debt whose APR no later positive-balance debt strictly
exceeds. -/
def selectTargetGo : List Debt → ℕ → Option (ℕ × ℚ) → Option (ℕ × ℚ)
  | [], _, best => best
  | d :: ds, i, best =>
    if 0 < d.balance then
      match best with
      | none => selectTargetGo ds (i + 1) (some (i, d.apr))
      | some (bi, ba) =>
        if ba < d.apr then selectTargetGo ds (i + 1) (some (i, d.apr))
        else selectTargetGo ds (i + 1) (some (bi, ba))
    else selectTargetGo ds (i + 1) best

def selectTargetIdx (debts : List Debt) : Option ℕ :=
  (selectTargetGo debts 0 none).map (fun p => p.1)

/-- The extra avalanche-payment step: when surplus is available and some
debt is active, pay `min safe balance` to the highest-APR active debt. -/
def extraStep (today : Date) (safe : ℚ) (s : SimState) : SimState :=
  if 0 < safe then
    match selectTargetIdx s.debts with
    | some j =>
      match s.debts.get? j with
      | some target =>
        let payment := min safe target.balance
        if 0 < payment then
          let t2 := applyPaymentToDebt target payment
          let t3 :=
            if t2.balance ≤ 0 ∧ t2.paid_off_date = none then
              { t2 with paid_off_date := some today }
            else t2
          let balance := s.balance - payment
          { s with
            balance := balance,
            debts := s.debts.set j t3,
            sched := s.sched ++ [{ date := today,
                                   type := .extra,
                                   description :=
                                     "Extra payment to " ++ target.name,
                                   amount := -payment,
                                   balance := balance }] }
        else s
      | none => s
    | none => s
  else s

/-- Daily interest accrual on every debt via its interest method. -/
def accrueAll (today : Date) : List Debt → Option (List Debt)
  | [] => some []
  | d :: ds => do
    let d2 ← imDaily d today
    let rest ← accrueAll today ds
    pure (d2 :: rest)

/-- Month-end pass over the debts list (in order): bill the accrued buffer,
add it to the balance and the interest counter, store it in the minimum
formula arguments, recompute and patch the minimum, and log a
`debt_add`-typed "interest" entry with no cash effect.  The source iterates
over the debts mutating each in place while the event list and schedule
grow; the embedding folds over the list. -/
def monthEndGo (fuel : ℕ) (today : Date) (cash : ℚ) :
    List Debt → List Event → List ScheduleEntry →
    Option (List Debt × List Event × List ScheduleEntry)
  | [], events, entries => some ([], events, entries)
  | debt :: ds, events, entries => do
    let r ← imMonthEnd debt today
    let debt2 := r.1
    let billed := r.2
    if 0 < billed then do
      let debt3 := { debt2 with
        balance := debt2.balance + billed,
        interest_charges := debt2.interest_charges + billed,
        min_payment_args :=
          { debt2.min_payment_args with interest_billed := some billed } }
      let pr ← recomputeAndPatch fuel debt3 today events
      let rest ← monthEndGo fuel today cash ds pr.2
        (entries ++ [{ date := today,
                       type := .debt_add,
                       description := debt.name ++ " interest",
                       amount := billed,
                       balance := cash }])
      pure (pr.1 :: rest.1, rest.2.1, rest.2.2)
    else do
      let rest ← monthEndGo fuel today cash ds events entries
      pure (debt2 :: rest.1, rest.2.1, rest.2.2)

/-- The end-of-day month-boundary pass (`if next_day.month != current_date.month`). -/
def monthEndStep (fuel : ℕ) (today : Date) (s : SimState) : Option SimState :=
  if (Date.succ today).month ≠ today.month then do
    let r ← monthEndGo fuel today s.balance s.debts s.events s.sched
    some { s with debts := r.1, events := r.2.1, sched := r.2.2 }
  else some s

/-- One simulated day of `daily_avalanche_schedule`: apply incomes, apply the
other events (raising or recording shortfalls), build the projector's view of
the remaining events, check the projected shortfall against the horizon end,
release the safe surplus to the highest-APR debt, accrue daily interest, and
run month-end billing when the next day crosses a month boundary. -/
def dayStep (fuel : ℕ) (debug : Bool) (endD : Date) (today : Date)
    (s : SimState) : Option (Except Date SimState) := do
  let todays := s.events.takeWhile (fun ev => ev.date = today)
  let rest := s.events.drop todays.length
  let paychecksToday := todays.filter (fun ev => ev.type = .paycheck)
  let othersToday := todays.filter (fun ev => ¬ ev.type = .paycheck)
  let s := { s with events := rest }
  let s := paychecksToday.foldl applyPaycheck s
  match ← applyOthers fuel debug today s othersToday with
  | .error d => pure (.error d)
  | .ok s => do
    let fl ← futureLoop fuel s.debts
      { futBills := [], futIncomes := [], sims := initSims s.debts,
        pend := [], lastDate := today } s.events
    let pm := projected_min_balance s.balance fl.1 fl.2
    let checked : Except Date SimState :=
      match pm.2 with
      | some nd =>
        if Date.le nd endD then
          if ¬ debug then .error nd
          else .ok { s with
            negHit := if s.negHit = none then some nd else s.negHit }
        else .ok s
      | none => .ok s
    match checked with
    | .error d => pure (.error d)
    | .ok s => do
      let safe := max 0 pm.1
      let s := extraStep today safe s
      let debts ← accrueAll today s.debts
      let s ← monthEndStep fuel today { s with debts := debts }
      pure (.ok s)

/-- The day loop `while current_date <= end`.  Since each iteration advances
the date by one day and `end = addDays start days`, the loop runs exactly
`days + 1` times; the count is passed explicitly. -/
def runLoop (fuel : ℕ) (debug : Bool) (endD : Date) :
    ℕ → Date → SimState → Option (Except Date SimState)
  | 0, _, s => some (.ok s)
  | n + 1, today, s => do
    match ← dayStep fuel debug endD today s with
    | .error d => pure (.error d)
    | .ok s2 => runLoop fuel debug endD n (Date.succ today) s2

/-- The final debts summary: each debt reports its balance, interest totals,
and either the next due date after the horizon end or its paid-off date. -/
def buildResults (fuel : ℕ) (endD : Date) : List Debt → Option (List DebtResult)
  | [] => some []
  | d :: ds => do
    let ndd : Option Date ←
      match d.paid_off_date with
      | some _ => pure none
      | none =>
        match d.due_date with
        | none => pure none
        | some due => (advancePastDate fuel due endD).map some
    let rest ← buildResults fuel endD ds
    pure ({ name := d.name, balance := d.balance,
            interest_accrued := d.interest_accrued,
            interest_charges := d.interest_charges,
            next_due_date := ndd,
            paid_off_date := d.paid_off_date } :: rest)

/-- Embedding of `daily_avalanche_schedule`.  The ambient `date.today()` is
the explicit `start` parameter; `fuel` bounds the source's date-advancing
while loops; `none` is an abnormal termination (fuel exhaustion or an
unregistered strategy tag / unknown debt name, which raise uncaught
exceptions in the source), `.error d` is the `ValueError` raised for a
shortfall on date `d`, and `.ok` carries (schedule, debts summary, first
negative date). -/
def lookaheadEnd (start : Date) (days : ℕ) : Date :=
  if Date.lt (addDays start days) (addDays start 365) then addDays start 365
  else addDays start days

/-- Preparation of the `Debt` objects from the input dicts: the whole input
balance starts out subject to interest. -/
def initDebts (debts_input : List DebtInput) : List Debt :=
  debts_input.map (fun d =>
    { name := d.name, balance := d.balance, apr := d.apr,
      minimum_payment := d.minimum_payment, due_date := d.due_date,
      min_payment_formula := d.min_payment_formula,
      min_payment_args := d.args,
      balance_subject_to_interest := d.balance,
      interest_method := d.interest_method })

def daily_avalanche_schedule (fuel : ℕ) (start : Date) (starting_balance : ℚ)
    (paychecks : List PaycheckSpec) (bills : List BillSpec)
    (debts_input : List DebtInput) (goals : List GoalSpec) (days : ℕ)
    (debug : Bool) :
    Option (Except Date (List ScheduleEntry × List DebtResult × Option Date)) := do
  let endD := addDays start days
  let debts := initDebts debts_input
  let events ← buildEvents fuel paychecks bills goals debts start
    (lookaheadEnd start days)
  let s0 : SimState :=
    { balance := starting_balance, debts := debts, events := events,
      sched := [], negHit := none }
  match ← runLoop fuel debug endD (days + 1) start s0 with
  | .error d => pure (.error d)
  | .ok s => do
    let results ← buildResults fuel endD s.debts
    pure (.ok (s.sched, results, s.negHit))

instance {ε α : Type} [DecidableEq ε] [DecidableEq α] : DecidableEq (Except ε α) :=
  fun a b =>
    match a, b with
    | .error e1, .error e2 =>
      if h : e1 = e2 then isTrue (by rw [h])
      else isFalse (fun hh => h (by injection hh))
    | .error _, .ok _ => isFalse (fun h => Except.noConfusion h)
    | .ok _, .error _ => isFalse (fun h => Except.noConfusion h)
    | .ok a1, .ok a2 =>
      if h : a1 = a2 then isTrue (by rw [h])
      else isFalse (fun hh => h (by injection hh))

/-- Replace only the shortfall marker of a state. -/
def setNeg (s : SimState) (m : Option Date) : SimState := { s with negHit := m }

/-- Two optional day results agree except possibly in the shortfall marker;
an error on either side is ruled out. -/
def OptEquiv : Option (Except Date SimState) → Option (Except Date SimState) → Prop
  | none, none => True
  | some (.ok t1), some (.ok t2) => ∃ n, t2 = setNeg t1 n
  | _, _ => False

def c6bill : BillSpec := { name := "big", amount := 1000, date := ⟨2026,1,2⟩ }

def c6debt : DebtInput := { name := "d", balance := 50, apr := 0 }

def c6schedN : List ScheduleEntry :=
  [{ date := ⟨2025,1,1⟩, type := .extra, description := "Extra payment to d",
     amount := -50, balance := 50 }]

def c6resN : List DebtResult :=
  [{ name := "d", balance := 0, interest_accrued := 0, interest_charges := 0,
     next_due_date := none, paid_off_date := some ⟨2025,1,1⟩ }]

def c6schedM : List ScheduleEntry :=
  [{ date := ⟨2026,1,2⟩, type := .bill, description := "big",
     amount := -1000, balance := -900 }]

def c6resM : List DebtResult :=
  [{ name := "d", balance := 50, interest_accrued := 0, interest_charges := 0,
     next_due_date := none, paid_off_date := none }]

def c3pay : PaycheckSpec := { amount := -5, date := ⟨2025,1,1⟩ }

def c3sched : List ScheduleEntry :=
  [{ date := ⟨2025,1,1⟩, type := .paycheck, description := "Paycheck",
     amount := -5, balance := -5 }]

def c8bill : BillSpec :=
  { name := "chg", amount := -50, date := ⟨2025,1,1⟩, debt := some "d" }

def c8debt : DebtInput := { name := "d", balance := 10, apr := 0 }

def c8sched : List ScheduleEntry :=
  [{ date := ⟨2025,1,1⟩, type := .debt_add, description := "chg",
     amount := -50, balance := 0 }]

def c8res : List DebtResult :=
  [{ name := "d", balance := -40, interest_accrued := 0, interest_charges := 0,
     next_due_date := none, paid_off_date := none }]

/-- All debt balances are nonnegative. -/
def DebtsNonneg (l : List Debt) : Prop := ∀ d ∈ l, 0 ≤ d.balance

/-- Every `debt_add` event carries a nonnegative charge. -/
def EventsAddNonneg (l : List Event) : Prop :=
  ∀ ev ∈ l, ev.type = .debt_add → 0 ≤ ev.amount

/-- Positional paid-off-stamp preservation: same length, and a stamp already
set at a position is still set to the same date. -/
def PdPres (a b : List Debt) : Prop :=
  a.length = b.length ∧
  ∀ i p, (a.get? i).map Debt.paid_off_date = some (some p) →
    (b.get? i).map Debt.paid_off_date = some (some p)

def w8debt : Debt :=
  { name := "d", balance := 0, apr := 10, minimum_payment := 0,
    paid_off_date := some ⟨2025,1,1⟩ }

def w8s : SimState :=
  { balance := 0, debts := [w8debt], events := [], sched := [], negHit := none }

def w8ev : Event :=
  { date := ⟨2025,2,1⟩, type := .debt_min, amount := 5, name := "d" }

def w4low : Debt :=
  { name := "low", balance := 100, apr := 5, minimum_payment := 0 }

def w4high : Debt :=
  { name := "high", balance := 100, apr := 20, minimum_payment := 0 }

def c1debt : DebtInput := { name := "d", balance := 100, apr := 10 }

def c1sched : List ScheduleEntry :=
  [{ date := ⟨2025,1,1⟩, type := .extra, description := "Extra payment to d",
     amount := -(1/100), balance := -(1/250) }]

def c1res : List DebtResult :=
  [{ name := "d", balance := 9999/100, interest_accrued := 9999/365000,
     interest_charges := 0, next_due_date := none, paid_off_date := none }]


def w3debt : Debt :=
  { name := "d", balance := 100, apr := 10, minimum_payment := 5 }

/-- A state with no cash, used to witness the non-debug minimum-payment
shortfall error. -/
def w3s : SimState :=
  { balance := 0, debts := [w3debt], events := [], sched := [], negHit := none }

def w3ev : Event :=
  { date := ⟨2025,3,1⟩, type := .debt_min, amount := 50, name := "d" }

/-- A debt that one extra payment pays off, used to witness the paid-off
stamping. -/
def w8target : Debt :=
  { name := "t", balance := 30, apr := 5, minimum_payment := 0 }


/-! ## Theorems -/

theorem div_num_den_floor (n : ℤ) (d : ℕ) :
    n / (d : ℤ) = ⌊(n : ℚ) / (d : ℚ)⌋ :=
  (Rat.floor_intCast_div_natCast n d).symm

theorem roundHalfUp_nonneg_eq (x : ℚ) (hx : 0 ≤ x) :
    roundHalfUp x = ⌊x + 1 / 2⌋ := by
  rw [roundHalfUp, if_pos hx]
  have h0 : ((x.den : ℚ)) ≠ 0 := by
    have := x.pos; positivity
  rw [show (2 * (x.den : ℤ)) = ((2 * x.den : ℕ) : ℤ) by push_cast; ring]
  rw [div_num_den_floor]
  have harg : (((2 * x.num + (x.den : ℤ)) : ℤ) : ℚ) / (((2 * x.den : ℕ)) : ℚ)
      = x + 1 / 2 := by
    conv_rhs => rw [← Rat.num_div_den x]
    push_cast
    field_simp
    ring
  rw [harg]

theorem roundHalfUp_neg_eq (x : ℚ) (hx : ¬ 0 ≤ x) :
    roundHalfUp x = -⌊-x + 1 / 2⌋ := by
  rw [roundHalfUp, if_neg hx]
  have h0 : ((x.den : ℚ)) ≠ 0 := by
    have := x.pos; positivity
  rw [show (2 * (x.den : ℤ)) = ((2 * x.den : ℕ) : ℤ) by push_cast; ring]
  rw [div_num_den_floor]
  have harg : (((-2 * x.num + (x.den : ℤ)) : ℤ) : ℚ) / (((2 * x.den : ℕ)) : ℚ)
      = -x + 1 / 2 := by
    conv_rhs => rw [← Rat.num_div_den x]
    push_cast
    field_simp
    ring
  rw [harg]

theorem roundHalfUp_intCast (n : ℤ) : roundHalfUp (n : ℚ) = n := by
  have hhalf : ⌊(1 / 2 : ℚ)⌋ = 0 := by norm_num
  rcases le_or_lt 0 (n : ℚ) with h | h
  · rw [roundHalfUp_nonneg_eq _ h, Int.floor_int_add, hhalf, add_zero]
  · rw [roundHalfUp_neg_eq _ (not_le.mpr h)]
    rw [show (-(n : ℚ) + 1 / 2) = ((-n : ℤ) : ℚ) + (1 / 2 : ℚ) by push_cast; ring]
    rw [Int.floor_int_add, hhalf, add_zero, neg_neg]

theorem roundHalfUp_mono {x y : ℚ} (h : x ≤ y) : roundHalfUp x ≤ roundHalfUp y := by
  rcases le_or_lt 0 x with hx | hx
  · have hy : 0 ≤ y := le_trans hx h
    rw [roundHalfUp_nonneg_eq _ hx, roundHalfUp_nonneg_eq _ hy]
    exact Int.floor_le_floor (by linarith)
  · rcases le_or_lt 0 y with hy | hy
    · rw [roundHalfUp_neg_eq _ (not_le.mpr hx), roundHalfUp_nonneg_eq _ hy]
      have h1 : (0 : ℤ) ≤ ⌊y + 1 / 2⌋ := by
        apply Int.floor_nonneg.mpr; linarith
      have h2 : (0 : ℤ) ≤ ⌊-x + 1 / 2⌋ := by
        apply Int.floor_nonneg.mpr; linarith
      omega
    · rw [roundHalfUp_neg_eq _ (not_le.mpr hx), roundHalfUp_neg_eq _ (not_le.mpr hy)]
      have := Int.floor_le_floor (α := ℚ) (show -y + 1 / 2 ≤ -x + 1 / 2 by linarith)
      omega

theorem quantCents_isCents (x : ℚ) : IsCents (quantCents x) :=
  ⟨roundHalfUp (x * 100), rfl⟩

theorem quantCents_of_isCents {x : ℚ} (h : IsCents x) : quantCents x = x := by
  obtain ⟨n, rfl⟩ := h
  rw [quantCents, show ((n : ℚ) / 100 * 100) = (n : ℚ) by field_simp,
    roundHalfUp_intCast]

theorem quantCents_mono {x y : ℚ} (h : x ≤ y) : quantCents x ≤ quantCents y := by
  have h1 := roundHalfUp_mono (show x * 100 ≤ y * 100 by linarith)
  rw [quantCents, quantCents]
  have h2 : ((roundHalfUp (x * 100)) : ℚ) ≤ ((roundHalfUp (y * 100)) : ℚ) := by
    exact_mod_cast h1
  linarith

theorem isCents_add {x y : ℚ} (hx : IsCents x) (hy : IsCents y) : IsCents (x + y) := by
  obtain ⟨n, rfl⟩ := hx; obtain ⟨m, rfl⟩ := hy
  exact ⟨n + m, by push_cast; ring⟩

theorem isCents_neg {x : ℚ} (hx : IsCents x) : IsCents (-x) := by
  obtain ⟨n, rfl⟩ := hx
  exact ⟨-n, by push_cast; ring⟩

theorem isCents_sub {x y : ℚ} (hx : IsCents x) (hy : IsCents y) : IsCents (x - y) := by
  rw [sub_eq_add_neg]; exact isCents_add hx (isCents_neg hy)

theorem isCents_zero : IsCents 0 := ⟨0, by norm_num⟩

theorem isCents_min {x y : ℚ} (hx : IsCents x) (hy : IsCents y) : IsCents (min x y) := by
  rcases min_choice x y with h | h <;> rw [h] <;> assumption

theorem isCents_max {x y : ℚ} (hx : IsCents x) (hy : IsCents y) : IsCents (max x y) := by
  rcases max_choice x y with h | h <;> rw [h] <;> assumption

theorem Date.lt_irrefl (a : Date) : ¬ Date.lt a a := by
  simp [Date.lt]

theorem Date.lt_trans {a b c : Date} (h1 : Date.lt a b) (h2 : Date.lt b c) :
    Date.lt a c := by
  rcases a with ⟨ay, am, ad⟩; rcases b with ⟨by_, bm, bd⟩; rcases c with ⟨cy, cm, cd⟩
  simp only [Date.lt] at *
  omega

theorem Date.le_refl (a : Date) : Date.le a a := Or.inr rfl

theorem Date.le_trans {a b c : Date} (h1 : Date.le a b) (h2 : Date.le b c) :
    Date.le a c := by
  rcases h1 with h1 | rfl
  · rcases h2 with h2 | rfl
    · exact Or.inl (Date.lt_trans h1 h2)
    · exact Or.inl h1
  · exact h2

theorem Date.lt_of_lt_of_le {a b c : Date} (h1 : Date.lt a b) (h2 : Date.le b c) :
    Date.lt a c := by
  rcases h2 with h2 | rfl
  · exact Date.lt_trans h1 h2
  · exact h1

theorem Date.le_of_lt {a b : Date} (h : Date.lt a b) : Date.le a b := Or.inl h

theorem Date.lt_or_ge (a b : Date) : Date.lt a b ∨ Date.le b a := by
  rcases a with ⟨ay, am, ad⟩; rcases b with ⟨by_, bm, bd⟩
  simp only [Date.lt, Date.le, Date.mk.injEq]
  omega

theorem Date.not_lt_of_le {a b : Date} (h : Date.le a b) : ¬ Date.lt b a := by
  intro hlt
  rcases h with h | rfl
  · exact Date.lt_irrefl _ (Date.lt_trans h hlt)
  · exact Date.lt_irrefl _ hlt

theorem Date.le_total (a b : Date) : Date.le a b ∨ Date.le b a := by
  rcases Date.lt_or_ge a b with h | h
  · exact Or.inl (Date.le_of_lt h)
  · exact Or.inr h

theorem Date.lt_succ (d : Date) : Date.lt d d.succ := by
  rw [Date.succ]
  split
  · exact Or.inr ⟨rfl, Or.inr ⟨rfl, show d.day < d.day + 1 by omega⟩⟩
  · split
    · exact Or.inr ⟨rfl, Or.inl (show d.month < d.month + 1 by omega)⟩
    · exact Or.inl (show d.year < d.year + 1 by omega)

theorem Date.lt_addDays_of_lt {a : Date} (n : ℕ) {b : Date} (h : Date.lt a b) :
    Date.lt a (addDays b n) := by
  induction n generalizing b with
  | zero => exact h
  | succ k ih => exact ih (Date.lt_trans h (Date.lt_succ b))

theorem Date.le_addDays (a : Date) (n : ℕ) : Date.le a (addDays a n) := by
  cases n with
  | zero => exact Date.le_refl a
  | succ k => exact Date.le_of_lt (Date.lt_addDays_of_lt k (Date.lt_succ a))

theorem Date.addDays_le_addDays {m n : ℕ} (h : m ≤ n) (a : Date) :
    Date.le (addDays a m) (addDays a n) := by
  induction m generalizing a n with
  | zero => exact Date.le_addDays a n
  | succ j ih =>
    cases n with
    | zero => omega
    | succ k => exact ih (by omega) a.succ

theorem Date.addDays_lt_addDays {m n : ℕ} (h : m < n) (a : Date) :
    Date.lt (addDays a m) (addDays a n) := by
  induction m generalizing a n with
  | zero =>
    cases n with
    | zero => omega
    | succ k => exact Date.lt_addDays_of_lt k (Date.lt_succ a)
  | succ j ih =>
    cases n with
    | zero => omega
    | succ k => exact ih (by omega) a.succ

theorem buildCashEvents_isCents (bills incomes : List CashItem) :
    ∀ e ∈ buildCashEvents bills incomes, IsCents e.amount := by
  intro e he
  have hperm := List.perm_insertionSort CashEvent.keyLe
    (bills.map (fun i => (⟨i.date, quantCents i.amount * (-1)⟩ : CashEvent)) ++
      incomes.map (fun i => (⟨i.date, quantCents i.amount⟩ : CashEvent)))
  have := hperm.mem_iff.mp he
  rcases List.mem_append.mp this with h | h
  · obtain ⟨i, _, rfl⟩ := List.mem_map.mp h
    have := quantCents_isCents i.amount
    obtain ⟨n, hn⟩ := this
    exact ⟨-n, by rw [hn]; push_cast; ring⟩
  · obtain ⟨i, _, rfl⟩ := List.mem_map.mp h
    exact quantCents_isCents i.amount

theorem ite_lt_min (a m : ℚ) : (if a < m then a else m) = min m a := by
  rcases lt_trichotomy a m with h | h | h
  · rw [if_pos h, min_eq_right h.le]
  · rw [if_neg (by rw [h]; exact lt_irrefl m), h, min_self]
  · rw [if_neg (not_lt.mpr h.le), min_eq_left h.le]

theorem pmbLoop_some (es : List CashEvent) (r m : ℚ) (d : Date)
    (hr : IsCents r) (hes : ∀ e ∈ es, IsCents e.amount) :
    pmbLoop r m (some d) es = ((runVals r es).foldl min m, some d) := by
  induction es generalizing r m with
  | nil => simp [pmbLoop, runVals]
  | cons e es ih =>
    have hq : quantCents (r + e.amount) = r + e.amount :=
      quantCents_of_isCents (isCents_add hr (hes e (by simp)))
    have hmin := ite_lt_min (r + e.amount) m
    rw [pmbLoop, runVals]
    simp only [hq, List.foldl_cons, hmin]
    exact ih (r + e.amount) _ (isCents_add hr (hes e (by simp)))
      (fun x hx => hes x (by simp [hx]))

theorem pmbLoop_none (es : List CashEvent) (r m : ℚ)
    (hr : IsCents r) (hes : ∀ e ∈ es, IsCents e.amount) :
    pmbLoop r m none es = ((runVals r es).foldl min m, firstNegDate r es) := by
  induction es generalizing r m with
  | nil => simp [pmbLoop, runVals, firstNegDate]
  | cons e es ih =>
    have hq : quantCents (r + e.amount) = r + e.amount :=
      quantCents_of_isCents (isCents_add hr (hes e (by simp)))
    have hmin := ite_lt_min (r + e.amount) m
    rw [pmbLoop, runVals, firstNegDate]
    simp only [hq, List.foldl_cons, hmin]
    by_cases hneg : r + e.amount < 0
    · rw [if_pos hneg, if_pos hneg]
      exact pmbLoop_some es _ _ _ (isCents_add hr (hes e (by simp)))
        (fun x hx => hes x (by simp [hx]))
    · rw [if_neg hneg, if_neg hneg]
      exact ih (r + e.amount) _ (isCents_add hr (hes e (by simp)))
        (fun x hx => hes x (by simp [hx]))

theorem foldl_min_le_init (l : List ℚ) (m : ℚ) : l.foldl min m ≤ m := by
  induction l generalizing m with
  | nil => simp
  | cons x xs ih => exact le_trans (ih (min m x)) (min_le_left m x)

theorem foldl_min_isCents (l : List ℚ) (m : ℚ) (hm : IsCents m)
    (hl : ∀ x ∈ l, IsCents x) : IsCents (l.foldl min m) := by
  induction l generalizing m with
  | nil => exact hm
  | cons x xs ih =>
    exact ih (min m x) (isCents_min hm (hl x (by simp)))
      (fun y hy => hl y (by simp [hy]))

theorem runVals_isCents (es : List CashEvent) (r : ℚ) (hr : IsCents r)
    (hes : ∀ e ∈ es, IsCents e.amount) : ∀ x ∈ runVals r es, IsCents x := by
  induction es generalizing r with
  | nil => simp [runVals]
  | cons e es ih =>
    intro x hx
    rw [runVals] at hx
    rcases List.mem_cons.mp hx with rfl | hx
    · exact isCents_add hr (hes e (by simp))
    · exact ih (r + e.amount) (isCents_add hr (hes e (by simp)))
        (fun y hy => hes y (by simp [hy])) x hx

/-- C2: `projected_min_balance` processes the dated amounts sorted
chronologically with same-day incomes (non-negative amounts) before same-day
outflows, folds a cumulative sum from the cent-quantized initial balance, and
returns the minimum running value reached (including the initial balance)
together with the date of the first event at which the running value goes
below zero; `max_safe_payment` returns `max 0` of that minimum. -/
theorem projected_min_balance_correct (b : ℚ) (bills incomes : List CashItem) :
    List.Sorted CashEvent.keyLe (buildCashEvents bills incomes) ∧
    projected_min_balance b bills incomes =
      ((runVals (quantCents b) (buildCashEvents bills incomes)).foldl min
          (quantCents b),
        firstNegDate (quantCents b) (buildCashEvents bills incomes)) ∧
    max_safe_payment b bills incomes =
      max 0 (projected_min_balance b bills incomes).1 := by
  refine ⟨List.sorted_insertionSort CashEvent.keyLe _, ?_, ?_⟩
  · exact pmbLoop_none _ _ _ (quantCents_isCents b)
      (buildCashEvents_isCents bills incomes)
  · rw [max_safe_payment]
    congr 1
    apply quantCents_of_isCents
    have hpm : projected_min_balance b bills incomes =
        ((runVals (quantCents b) (buildCashEvents bills incomes)).foldl min
            (quantCents b),
          firstNegDate (quantCents b) (buildCashEvents bills incomes)) :=
      pmbLoop_none _ _ _ (quantCents_isCents b)
        (buildCashEvents_isCents bills incomes)
    rw [hpm]
    exact foldl_min_isCents _ _ (quantCents_isCents b)
      (runVals_isCents _ _ (quantCents_isCents b)
        (buildCashEvents_isCents bills incomes))

theorem credit_card_daily_fields (debt : Debt) (dt : Date) :
    (credit_card_daily debt dt).apr = debt.apr ∧
    (credit_card_daily debt dt).due_date = debt.due_date ∧
    (credit_card_daily debt dt).grace_charges = debt.grace_charges ∧
    (credit_card_daily debt dt).balance = debt.balance ∧
    (credit_card_daily debt dt).balance_subject_to_interest
      = debt.balance_subject_to_interest ∧
    (credit_card_daily debt dt).interest_charges = debt.interest_charges := by
  rw [credit_card_daily]
  split <;> exact ⟨rfl, rfl, rfl, rfl, rfl, rfl⟩

theorem credit_card_daily_iter_pos (dt : Date) (d : ℕ) :
    ∀ debt : Debt, 0 < debt.balance_subject_to_interest → 0 < debt.apr →
    ((fun x => credit_card_daily x dt)^[d] debt).interest_buffer
        = debt.interest_buffer
          + d * (debt.balance_subject_to_interest * debt.apr / 36500) ∧
    ((fun x => credit_card_daily x dt)^[d] debt).balance_subject_to_interest
        = debt.balance_subject_to_interest ∧
    ((fun x => credit_card_daily x dt)^[d] debt).apr = debt.apr := by
  induction d with
  | zero => intro debt _ _; simp
  | succ k ih =>
    intro debt hB hr
    rw [Function.iterate_succ_apply]
    have hstep : credit_card_daily debt dt
        = { debt with
            interest_buffer := debt.interest_buffer
              + debt.balance_subject_to_interest * debt.apr / 36500,
            interest_accrued := debt.interest_accrued
              + debt.balance_subject_to_interest * debt.apr / 36500 } := by
      rw [credit_card_daily, if_pos ⟨hB, hr⟩]
    rw [hstep]
    obtain ⟨h1, h2, h3⟩ := ih { debt with
            interest_buffer := debt.interest_buffer
              + debt.balance_subject_to_interest * debt.apr / 36500,
            interest_accrued := debt.interest_accrued
              + debt.balance_subject_to_interest * debt.apr / 36500 } hB hr
    refine ⟨?_, h2, h3⟩
    rw [h1]
    push_cast
    ring

theorem credit_card_daily_iter_flat (dt : Date) (d : ℕ) :
    ∀ debt : Debt,
    ¬ (0 < debt.balance_subject_to_interest ∧ 0 < debt.apr) →
    (fun x => credit_card_daily x dt)^[d] debt = debt := by
  induction d with
  | zero => intro debt _; simp
  | succ k ih =>
    intro debt h
    rw [Function.iterate_succ_apply]
    rw [show credit_card_daily debt dt = debt from by
      rw [credit_card_daily, if_neg h]]
    exact ih debt h

theorem quantCents_zero : quantCents 0 = 0 := quantCents_of_isCents isCents_zero

/-- C9: a revolving debt whose interest-bearing principal stays at `B` with
rate `r`, receiving no charges or payments over `d` daily accruals, bills
exactly `quantCents (B * r / 36500 * d)` at month end (simple accrual, no
compounding), its unbilled buffer resets to zero, and the principal is
unchanged. -/
theorem revolving_interest_simple_accrual (d : ℕ) (debt : Debt) (dt : Date)
    (hbuf : debt.interest_buffer = 0)
    (hB : 0 ≤ debt.balance_subject_to_interest) (hr : 0 ≤ debt.apr) :
    (credit_card_month_end ((fun x => credit_card_daily x dt)^[d] debt) dt).2
      = quantCents (debt.balance_subject_to_interest * debt.apr / 36500 * d) ∧
    (credit_card_month_end ((fun x => credit_card_daily x dt)^[d] debt)
        dt).1.interest_buffer = 0 ∧
    ((fun x => credit_card_daily x dt)^[d] debt).balance_subject_to_interest
      = debt.balance_subject_to_interest := by
  by_cases hpos : 0 < debt.balance_subject_to_interest ∧ 0 < debt.apr
  · obtain ⟨h1, h2, _⟩ := credit_card_daily_iter_pos dt d debt hpos.1 hpos.2
    rw [hbuf, zero_add] at h1
    have hX : 0 ≤ debt.balance_subject_to_interest * debt.apr / 36500 := by
      have := hpos.1; have := hpos.2; positivity
    refine ⟨?_, ?_, h2⟩
    · rw [credit_card_month_end, h1]
      by_cases hd : 0 < (d : ℚ) * (debt.balance_subject_to_interest * debt.apr / 36500)
      · rw [if_pos hd]
        ring_nf
      · rw [if_neg hd]
        have hnn : 0 ≤ (d : ℚ)
            * (debt.balance_subject_to_interest * debt.apr / 36500) :=
          mul_nonneg (Nat.cast_nonneg d) hX
        have hd0 : (d : ℚ) * (debt.balance_subject_to_interest * debt.apr / 36500)
            = 0 := by
          rcases hnn.lt_or_eq with h | h
          · exact absurd h hd
          · exact h.symm
        rw [show debt.balance_subject_to_interest * debt.apr / 36500 * d = 0 from
          by rw [← hd0]; ring, quantCents_zero]
    · rw [credit_card_month_end]
      split
      · rfl
      · rename_i hnot
        rw [h1] at hnot ⊢
        have hnn : 0 ≤ (d : ℚ)
            * (debt.balance_subject_to_interest * debt.apr / 36500) :=
          mul_nonneg (Nat.cast_nonneg d) hX
        have hd0 : (d : ℚ) * (debt.balance_subject_to_interest * debt.apr / 36500)
            = 0 := by
          rcases hnn.lt_or_eq with h | h
          · exact absurd h hnot
          · exact h.symm
        rw [hd0]
  · have hflat := credit_card_daily_iter_flat dt d debt hpos
    rw [hflat]
    have hzero : debt.balance_subject_to_interest * debt.apr = 0 := by
      rcases hB.lt_or_eq with h | h
      · rcases hr.lt_or_eq with h2 | h2
        · exact absurd ⟨h, h2⟩ hpos
        · rw [← h2, mul_zero]
      · rw [← h, zero_mul]
    refine ⟨?_, ?_, rfl⟩
    · rw [credit_card_month_end, hbuf, if_neg (lt_irrefl 0),
        show debt.balance_subject_to_interest * debt.apr / 36500 * d = 0 from by
          rw [hzero]; ring, quantCents_zero]
    · rw [credit_card_month_end, hbuf, if_neg (lt_irrefl 0), hbuf]

theorem revolving_interest_simple_accrual_witness :
    (credit_card_month_end
        ((fun x => credit_card_daily x ⟨2025, 3, 31⟩)^[3] debtW9)
        ⟨2025, 3, 31⟩).2
      = quantCents (debtW9.balance_subject_to_interest * debtW9.apr / 36500 * 3) ∧
    (credit_card_month_end
        ((fun x => credit_card_daily x ⟨2025, 3, 31⟩)^[3] debtW9)
        ⟨2025, 3, 31⟩).1.interest_buffer = 0 ∧
    ((fun x => credit_card_daily x ⟨2025, 3, 31⟩)^[3]
        debtW9).balance_subject_to_interest
      = debtW9.balance_subject_to_interest :=
  revolving_interest_simple_accrual 3 debtW9 ⟨2025, 3, 31⟩ rfl
    (by norm_num [debtW9]) (by norm_num [debtW9])

theorem grace_fold_eq (apr : ℚ) (cur : Date) (l : List (Date × ℚ)) :
    ∀ b a s : ℚ,
    l.foldl (fun (st : ℚ × ℚ × ℚ) (c : Date × ℚ) =>
        (st.1 + c.2 * apr / 36500 * ((dayOrd cur - dayOrd c.1 + 1 : ℤ) : ℚ),
          st.2.1 + c.2 * apr / 36500 * ((dayOrd cur - dayOrd c.1 + 1 : ℤ) : ℚ),
          st.2.2 + c.2)) (b, a, s)
      = (b + retroSum apr cur l, a + retroSum apr cur l, s + chargeSum l) := by
  induction l with
  | nil => intro b a s; simp [retroSum, chargeSum]
  | cons c cs ih =>
    intro b a s
    rw [List.foldl_cons, ih]
    simp only [retroSum, chargeSum, List.map_cons, List.sum_cons, Prod.mk.injEq]
    refine ⟨by ring, by ring, by ring⟩

/-- C7 counterexample: a new charge on a grace-period debt that already has
interest-bearing principal is not placed in the pending list (it is added
directly to interest-bearing principal), refuting the claim that every new
charge is placed in the pending list keyed by its charge date. -/
theorem apple_card_charge_bypasses_pending :
    (apple_card_add_charge debtC7 50 ⟨2025, 1, 15⟩).grace_charges
        ≠ debtC7.grace_charges ++ [(⟨2025, 1, 15⟩, 50)] ∧
    (apple_card_add_charge debtC7 50 ⟨2025, 1, 15⟩).grace_charges = [] ∧
    (apple_card_add_charge debtC7 50 ⟨2025, 1, 15⟩).balance_subject_to_interest
        = 150 := by
  refine ⟨?_, ?_, ?_⟩
  · rw [apple_card_add_charge, if_neg (by norm_num [debtC7])]
    simp [debtC7]
  · rw [apple_card_add_charge, if_neg (by norm_num [debtC7])]
    rfl
  · rw [apple_card_add_charge, if_neg (by norm_num [debtC7])]
    norm_num [debtC7]

/-- C7 amended: a charge made while the debt's interest-bearing principal is
zero joins the pending list keyed by its charge date; otherwise it is added
directly to interest-bearing principal.  When the current day equals the
debt's due date and charges are pending, each pending charge retroactively
accrues interest for `(current - charge_date).days + 1` days into the
unbilled buffer, pending amounts fold into interest-bearing principal, the
pending list empties and the due date advances one month; on any other day
the grace state is untouched and only generic daily accrual happens. -/
theorem apple_card_grace_amended :
    (∀ (debt : Debt) (amt : ℚ) (dt : Date),
      (debt.balance_subject_to_interest = 0 →
        apple_card_add_charge debt amt dt
          = { debt with grace_charges := debt.grace_charges ++ [(dt, amt)] }) ∧
      (debt.balance_subject_to_interest ≠ 0 →
        apple_card_add_charge debt amt dt
          = { debt with balance_subject_to_interest :=
                debt.balance_subject_to_interest + amt })) ∧
    (∀ (debt : Debt) (dt : Date),
      (debt.due_date = some dt → debt.grace_charges ≠ [] →
        apple_card_daily debt dt
          = { credit_card_daily debt dt with
              interest_buffer := (credit_card_daily debt dt).interest_buffer
                + retroSum debt.apr dt debt.grace_charges,
              interest_accrued := (credit_card_daily debt dt).interest_accrued
                + retroSum debt.apr dt debt.grace_charges,
              balance_subject_to_interest :=
                (credit_card_daily debt dt).balance_subject_to_interest
                  + chargeSum debt.grace_charges,
              grace_charges := [],
              due_date := some (addMonth dt) }) ∧
      ((debt.due_date = some dt → debt.grace_charges = []) →
        apple_card_daily debt dt = credit_card_daily debt dt)) := by
  constructor
  · intro debt amt dt
    constructor
    · intro h0
      rw [apple_card_add_charge, if_pos h0]
    · intro h0
      rw [apple_card_add_charge, if_neg h0]
  · intro debt dt
    obtain ⟨hapr, hdue, hgrace, _, _, _⟩ := credit_card_daily_fields debt dt
    constructor
    · intro hd hg
      show (if _ then _ else _) = _
      rw [if_pos ⟨hdue.trans hd, by rw [hgrace]; exact hg⟩]
      simp only [hapr, hgrace]
      rw [grace_fold_eq]
    · intro hflat
      show (if _ then _ else _) = _
      rw [if_neg]
      rintro ⟨h1, h2⟩
      rw [hdue] at h1
      rw [hgrace] at h2
      exact h2 (hflat h1)

theorem apple_card_grace_amended_witness :
    apple_card_add_charge debtW7 5 ⟨2025, 2, 1⟩
      = { debtW7 with grace_charges := debtW7.grace_charges ++ [(⟨2025, 2, 1⟩, 5)] } :=
  (apple_card_grace_amended.1 debtW7 5 ⟨2025, 2, 1⟩).1 rfl

/-- C5 counterexample: the generic `credit_card` formula applies no cap, so
with a large annual rate it returns a minimum payment exceeding the balance
(here 201 against a balance of 100). -/
theorem min_payment_exceeds_balance_cex :
    credit_card 0 debtC5 ⟨2025, 1, 1⟩ = some 201 ∧ debtC5.balance = 100 ∧
    ¬ ((201 : ℚ) ≤ 100) := by
  refine ⟨?_, rfl, by norm_num⟩
  norm_num [credit_card, creditCardProjBalance, debtC5, quantCents,
    roundHalfUp, Option.bind, bind]

/-- C5 amended: the `apple_card` formula never returns more than the debt's
balance (its final cap guarantees this for every debt); the `credit_card`
formula has no cap, and stays within the balance exactly when the projected
balance times the rate factor is at most the (cent-quantized) balance. -/
theorem min_payment_cap_amended :
    (∀ (debt : Debt) (dt : Date), apple_card debt dt ≤ debt.balance) ∧
    (∀ (fuel : ℕ) (debt : Debt) (asof : Date) (pb : ℚ),
      creditCardProjBalance fuel debt asof = some pb →
      IsCents debt.balance →
      pb * (debt.apr / 1200 + 1 / 100) ≤ debt.balance →
      credit_card fuel debt asof
          = some (quantCents (pb * (debt.apr / 1200 + 1 / 100))) ∧
        quantCents (pb * (debt.apr / 1200 + 1 / 100)) ≤ debt.balance) := by
  constructor
  · intro debt dt
    simp only [apple_card]
    split
    · exact le_refl _
    · next h => exact not_lt.mp h
  · intro fuel debt asof pb hpb hc hle
    refine ⟨?_, ?_⟩
    · rw [credit_card, hpb]
      rfl
    · calc quantCents (pb * (debt.apr / 1200 + 1 / 100))
          ≤ quantCents debt.balance := quantCents_mono hle
        _ = debt.balance := quantCents_of_isCents hc

theorem min_payment_cap_amended_witness :
    apple_card debtW7 ⟨2025, 1, 1⟩ ≤ debtW7.balance ∧
    (credit_card 0 debtW5 ⟨2025, 1, 1⟩
        = some (quantCents (debtW5.balance * (debtW5.apr / 1200 + 1 / 100))) ∧
      quantCents (debtW5.balance * (debtW5.apr / 1200 + 1 / 100))
        ≤ debtW5.balance) :=
  ⟨min_payment_cap_amended.1 debtW7 ⟨2025, 1, 1⟩,
    min_payment_cap_amended.2 0 debtW5 ⟨2025, 1, 1⟩ debtW5.balance rfl
      ⟨5000, by norm_num [debtW5]⟩ (by norm_num [debtW5])⟩

/-- C10 counterexample: on a 10-unit balance with no extra arguments the
source formula returns 10 (the 25-unit floor kicks in and is then capped at
the balance), while the formula as the claim words it (without the floor)
returns 1. -/
theorem apple_card_minimum_floor_cex :
    apple_card debtC10 ⟨2025, 1, 1⟩ = 10 ∧
    appleCardClaimedFormula debtC10 = 1 ∧
    apple_card debtC10 ⟨2025, 1, 1⟩ ≠ appleCardClaimedFormula debtC10 := by
  refine ⟨?_, ?_, ?_⟩
  · norm_num [apple_card, debtC10, quantUnitUp, roundAwayUp]
  · norm_num [appleCardClaimedFormula, debtC10, quantUnitUp, roundAwayUp]
  · norm_num [apple_card, appleCardClaimedFormula, debtC10, quantUnitUp,
      roundAwayUp]

/-- C10 amended: the `apple_card` minimum equals the claimed formula with the
25-unit floor restored: 1% of (balance net of financing minus the unpaid
daily-cash adjustment) plus that adjustment, rounded up to a whole unit,
floored at 25, plus installments, billed interest and past-due amounts,
capped at the debt's balance. -/
theorem apple_card_formula_amended (debt : Debt) (dt : Date) :
    apple_card debt dt = appleCardAmendedFormula debt := rfl

theorem addDays_addDays (d : Date) (a b : ℕ) :
    addDays (addDays d a) b = addDays d (a + b) := by
  induction a generalizing d with
  | zero =>
    rw [Nat.zero_add]
    rfl
  | succ k ih =>
    have h1 : addDays d (k + 1) = addDays d.succ k := rfl
    have h2 : addDays d (k + 1 + b) = addDays d.succ (k + b) := by
      rw [show k + 1 + b = (k + b) + 1 from by omega]
      rfl
    rw [h1, h2, ih]

theorem runLoop_split (fuel : ℕ) (debug : Bool) (endD : Date) (a b : ℕ)
    (today : Date) (s : SimState) :
    runLoop fuel debug endD (a + b) today s =
      match runLoop fuel debug endD a today s with
      | some (.ok s2) => runLoop fuel debug endD b (addDays today a) s2
      | r => r := by
  induction a generalizing today s with
  | zero =>
    rw [Nat.zero_add]
    rfl
  | succ k ih =>
    rw [show k + 1 + b = (k + b) + 1 from by omega]
    have e1 : ∀ (m : ℕ) (s3 : SimState), runLoop fuel debug endD (m + 1) today s3 =
        Option.bind (dayStep fuel debug endD today s3)
          (fun r => match r with
            | .error d => some (.error d)
            | .ok s2 => runLoop fuel debug endD m (Date.succ today) s2) :=
      fun _ _ => rfl
    rw [e1, e1]
    cases hd : dayStep fuel debug endD today s with
    | none => rfl
    | some r =>
      cases r with
      | error d => rfl
      | ok s2 =>
        show runLoop fuel debug endD (k + b) (Date.succ today) s2 = _
        rw [ih]
        rfl

theorem OptEquiv_none : OptEquiv none none := trivial

theorem OptEquiv_ok_ok (t1 t2 : SimState) :
    OptEquiv (some (.ok t1)) (some (.ok t2)) = ∃ n, t2 = setNeg t1 n := rfl

theorem OptEquiv.intro (t1 t2 : SimState) (n : Option Date)
    (h : t2 = setNeg t1 n) : OptEquiv (some (.ok t1)) (some (.ok t2)) := ⟨n, h⟩

theorem setNeg_setNeg (s : SimState) (m n : Option Date) :
    setNeg (setNeg s m) n = setNeg s n := rfl

theorem setNeg_self (s : SimState) : setNeg s s.negHit = s := rfl

theorem applyPaycheck_setNeg (s : SimState) (m : Option Date) (ev : Event) :
    applyPaycheck (setNeg s m) ev = setNeg (applyPaycheck s ev) m := rfl

theorem foldl_applyPaycheck_setNeg (l : List Event) (s : SimState) (m : Option Date) :
    l.foldl applyPaycheck (setNeg s m) = setNeg (l.foldl applyPaycheck s) m := by
  induction l generalizing s with
  | nil => rfl
  | cons ev rest ih =>
    simp only [List.foldl_cons, applyPaycheck_setNeg, ih]

theorem finishOutflow_true (s : SimState) (ev : Event) (p : ℚ) (dl : List Debt) :
    finishOutflow true s ev p dl =
      .ok { s with
        balance := s.balance - p,
        debts := dl,
        negHit := if s.balance - p < 0 ∧ s.negHit = none then some ev.date
          else s.negHit,
        sched := s.sched ++ [{ date := ev.date,
                               type := ev.type,
                               description := ev.name,
                               amount := -(p),
                               balance := s.balance - p }] } := by
  simp [finishOutflow]

theorem applyOther_setNeg (fuel : ℕ) (today : Date) (s : SimState)
    (m : Option Date) (ev : Event) :
    OptEquiv (applyOther fuel true today s ev)
      (applyOther fuel true today (setNeg s m) ev) := by
  cases ht : ev.type with
  | debt_add =>
    cases hn : ev.debt with
    | none => simp [applyOther, ht, hn, OptEquiv, setNeg]
    | some n =>
      cases hf : findDebt s.debts n with
      | none => simp [applyOther, ht, hn, hf, OptEquiv, setNeg]
      | some debt =>
        cases hc : imAddCharge { debt with balance := debt.balance + ev.amount }
            ev.amount ev.date with
        | none => simp [applyOther, ht, hn, hf, hc, OptEquiv, setNeg]
        | some dc =>
          cases hr : recomputeAndPatch fuel dc today s.events with
          | none => simp [applyOther, ht, hn, hf, hc, hr, OptEquiv, setNeg]
          | some pr =>
            simp only [applyOther, ht, hn, hf, hc, hr, setNeg, Option.pure_def,
              Option.bind_eq_bind, Option.some_bind]
            exact OptEquiv.intro _ _ _ rfl
  | debt_min =>
    cases hf : findDebt s.debts (ev.debt.getD ev.name) with
    | none => simp [applyOther, ht, hf, OptEquiv, setNeg]
    | some debt =>
      simp only [applyOther, ht, hf, setNeg, Option.pure_def,
        Option.bind_eq_bind, Option.some_bind]
      by_cases hp : min ev.amount debt.balance ≤ 0
      · rw [if_pos hp, if_pos hp]
        exact OptEquiv.intro _ _ m rfl
      · rw [if_neg hp, if_neg hp]
        simp only [finishOutflow_true]
        exact OptEquiv.intro _ _ _ rfl
  | paycheck =>
    simp only [applyOther, ht, setNeg, finishOutflow_true, Option.pure_def]
    exact OptEquiv.intro _ _ _ rfl
  | bill =>
    simp only [applyOther, ht, setNeg, finishOutflow_true, Option.pure_def]
    exact OptEquiv.intro _ _ _ rfl
  | goal =>
    simp only [applyOther, ht, setNeg, finishOutflow_true, Option.pure_def]
    exact OptEquiv.intro _ _ _ rfl
  | extra =>
    simp only [applyOther, ht, setNeg, finishOutflow_true, Option.pure_def]
    exact OptEquiv.intro _ _ _ rfl

theorem applyOthers_setNeg (fuel : ℕ) (today : Date) (l : List Event)
    (s : SimState) (m : Option Date) :
    OptEquiv (applyOthers fuel true today s l)
      (applyOthers fuel true today (setNeg s m) l) := by
  induction l generalizing s m with
  | nil => exact OptEquiv.intro _ _ m rfl
  | cons ev rest ih =>
    have h := applyOther_setNeg fuel today s m ev
    cases h1 : applyOther fuel true today s ev with
    | none =>
      cases h2 : applyOther fuel true today (setNeg s m) ev with
      | none => simp [applyOthers, h1, h2, OptEquiv]
      | some r =>
        rw [h1, h2] at h
        cases r with
        | error d => exact absurd h (by simp [OptEquiv])
        | ok t => exact absurd h (by simp [OptEquiv])
    | some r =>
      cases r with
      | error d =>
        cases h2 : applyOther fuel true today (setNeg s m) ev with
        | none => rw [h1, h2] at h; exact absurd h (by simp [OptEquiv])
        | some r2 =>
          rw [h1, h2] at h
          cases r2 with
          | error d2 => exact absurd h (by simp [OptEquiv])
          | ok t2 => exact absurd h (by simp [OptEquiv])
      | ok t =>
        cases h2 : applyOther fuel true today (setNeg s m) ev with
        | none => rw [h1, h2] at h; exact absurd h (by simp [OptEquiv])
        | some r2 =>
          rw [h1, h2] at h
          cases r2 with
          | error d2 => exact absurd h (by simp [OptEquiv])
          | ok t2 =>
            obtain ⟨n, hn⟩ := h
            subst hn
            simp only [applyOthers, h1, h2, Option.pure_def,
              Option.bind_eq_bind, Option.some_bind]
            exact ih t n

theorem extraStep_setNeg (today : Date) (safe : ℚ) (s : SimState)
    (m : Option Date) :
    extraStep today safe (setNeg s m) = setNeg (extraStep today safe s) m := by
  by_cases h0 : 0 < safe
  · simp only [extraStep, if_pos h0, setNeg]
    cases hj : selectTargetIdx s.debts with
    | none => simp only [hj]
    | some j =>
      simp only [hj]
      cases hg : s.debts.get? j with
      | none => simp only [hg]
      | some target =>
        simp only [hg]
        by_cases hp : 0 < min safe target.balance
        · rw [if_pos hp, if_pos hp]
        · rw [if_neg hp, if_neg hp]
  · simp only [extraStep, if_neg h0, setNeg]

theorem monthEndStep_setNeg (fuel : ℕ) (today : Date) (s : SimState)
    (m : Option Date) :
    monthEndStep fuel today (setNeg s m) =
      (monthEndStep fuel today s).map (fun t => setNeg t m) := by
  by_cases hb : (Date.succ today).month ≠ today.month
  · simp only [monthEndStep, if_pos hb, setNeg]
    cases hr : monthEndGo fuel today s.balance s.debts s.events s.sched with
    | none => rfl
    | some r => rfl
  · simp only [monthEndStep, if_neg hb, setNeg, Option.map_some]
    rfl

theorem optequiv_bind (x1 x2 : Option (Except Date SimState))
    (f1 f2 : Except Date SimState → Option (Except Date SimState))
    (hx : OptEquiv x1 x2)
    (hok : ∀ t n, OptEquiv (f1 (.ok t)) (f2 (.ok (setNeg t n)))) :
    OptEquiv (x1 >>= f1) (x2 >>= f2) := by
  cases x1 with
  | none =>
    cases x2 with
    | none => exact trivial
    | some r => exact absurd hx (by cases r <;> simp [OptEquiv])
  | some r1 =>
    cases x2 with
    | none => exact absurd hx (by cases r1 <;> simp [OptEquiv])
    | some r2 =>
      cases r1 with
      | error d => exact absurd hx (by cases r2 <;> simp [OptEquiv])
      | ok t1 =>
        cases r2 with
        | error d2 => exact absurd hx (by simp [OptEquiv])
        | ok t2 =>
          obtain ⟨n, hn⟩ := hx
          subst hn
          exact hok t1 n

theorem optequiv_bindA {α : Type} (x : Option α)
    (f1 f2 : α → Option (Except Date SimState))
    (hok : ∀ a, OptEquiv (f1 a) (f2 a)) :
    OptEquiv (x >>= f1) (x >>= f2) := by
  cases x with
  | none => exact trivial
  | some a => exact hok a

theorem dayStepTail_setNeg (fuel : ℕ) (today : Date) (safe : ℚ)
    (u : SimState) (n : Option Date) :
    OptEquiv
      (do
        let s := extraStep today safe u
        let debts ← accrueAll today s.debts
        let s ← monthEndStep fuel today { s with debts := debts }
        pure (.ok s))
      (do
        let s := extraStep today safe (setNeg u n)
        let debts ← accrueAll today s.debts
        let s ← monthEndStep fuel today { s with debts := debts }
        pure (.ok s)) := by
  rw [extraStep_setNeg]
  cases ha : accrueAll today (extraStep today safe u).debts with
  | none =>
    have ha2 : accrueAll today (setNeg (extraStep today safe u) n).debts = none := ha
    simp only [ha, ha2, Option.bind_eq_bind, Option.none_bind]
    exact trivial
  | some debts =>
    have ha2 : accrueAll today (setNeg (extraStep today safe u) n).debts =
        some debts := ha
    simp only [ha, ha2, Option.bind_eq_bind, Option.some_bind]
    have hm := monthEndStep_setNeg fuel today
      { extraStep today safe u with debts := debts } n
    have hm' : monthEndStep fuel today
        { setNeg (extraStep today safe u) n with debts := debts } =
        (monthEndStep fuel today
          { extraStep today safe u with debts := debts }).map
          (fun t => setNeg t n) := hm
    rw [hm']
    cases hmo : monthEndStep fuel today
        { extraStep today safe u with debts := debts } with
    | none => exact trivial
    | some t =>
      simp only [Option.map_some, Option.some_bind]
      exact OptEquiv.intro _ _ n rfl

theorem applyOthers_foldl_setNeg (fuel : ℕ) (today : Date) (l pays : List Event)
    (A : SimState) (m : Option Date) :
    OptEquiv (applyOthers fuel true today (pays.foldl applyPaycheck A) l)
      (applyOthers fuel true today (pays.foldl applyPaycheck (setNeg A m)) l) := by
  rw [foldl_applyPaycheck_setNeg]
  exact applyOthers_setNeg fuel today l _ m

theorem dayStep_setNeg (fuel : ℕ) (e1 e2 today : Date) (s : SimState)
    (m : Option Date) :
    OptEquiv (dayStep fuel true e1 today s)
      (dayStep fuel true e2 today (setNeg s m)) := by
  simp only [dayStep]
  dsimp only [setNeg]
  refine optequiv_bind _ _ _ _ (applyOthers_foldl_setNeg fuel today _ _ _ m) ?_
  intro t n
  dsimp only [setNeg]
  refine optequiv_bindA _ _ _ ?_
  intro fl
  cases hpm : (projected_min_balance t.balance fl.1 fl.2).2 with
  | none =>
    dsimp only [hpm]
    exact dayStepTail_setNeg fuel today _ _ _
  | some nd =>
    dsimp only [hpm]
    by_cases h1 : Date.le nd e1 <;> by_cases h2 : Date.le nd e2
    · rw [if_pos h1, if_pos h2]
      exact dayStepTail_setNeg fuel today _ _ _
    · rw [if_pos h1, if_neg h2]
      exact dayStepTail_setNeg fuel today _ _ _
    · rw [if_neg h1, if_pos h2]
      exact dayStepTail_setNeg fuel today _ _ _
    · rw [if_neg h1, if_neg h2]
      exact dayStepTail_setNeg fuel today _ _ _

theorem runLoop_setNeg (fuel : ℕ) (e1 e2 : Date) (n : ℕ) (today : Date)
    (s : SimState) (m : Option Date) :
    OptEquiv (runLoop fuel true e1 n today s)
      (runLoop fuel true e2 n today (setNeg s m)) := by
  induction n generalizing today s m with
  | zero => exact OptEquiv.intro _ _ m rfl
  | succ k ih =>
    have eq : ∀ (e : Date) (s3 : SimState),
        runLoop fuel true e (k + 1) today s3 =
          (dayStep fuel true e today s3) >>= (fun r =>
            match r with
            | .error d => some (.error d)
            | .ok s2 => runLoop fuel true e k (Date.succ today) s2) :=
      fun _ _ => rfl
    rw [eq, eq]
    exact optequiv_bind _ _ _ _ (dayStep_setNeg fuel e1 e2 today s m)
      (fun t n => ih (Date.succ today) t n)

theorem runLoop_debug_no_error (fuel : ℕ) (e : Date) (n : ℕ) (today : Date)
    (s : SimState) (d : Date) :
    runLoop fuel true e n today s ≠ some (.error d) := by
  intro h
  have := runLoop_setNeg fuel e e n today s s.negHit
  rw [setNeg_self, h] at this
  exact this

theorem foldl_applyPaycheck_sched (l : List Event) (s : SimState) (today : Date)
    (hl : ∀ ev ∈ l, ev.date = today) :
    ∃ new, (l.foldl applyPaycheck s).sched = s.sched ++ new ∧
      ∀ x ∈ new, x.date = today := by
  induction l generalizing s with
  | nil =>
    refine ⟨[], by simp, by simp⟩
  | cons ev rest ih =>
    obtain ⟨new, hn, hd⟩ := ih (applyPaycheck s ev) (fun e he => hl e (by simp [he]))
    refine ⟨{ date := ev.date, type := EType.paycheck, description := ev.name,
              amount := ev.amount, balance := s.balance + ev.amount } :: new, ?_, ?_⟩
    · rw [List.foldl_cons, hn]
      show (applyPaycheck s ev).sched ++ new = _
      rw [show (applyPaycheck s ev).sched = s.sched ++
        [{ date := ev.date, type := EType.paycheck, description := ev.name,
           amount := ev.amount, balance := s.balance + ev.amount }] from rfl]
      simp
    · intro x hx
      rcases List.mem_cons.1 hx with h | h
      · subst h; exact hl ev (by simp)
      · exact hd x h

theorem finishOutflow_sched (debug : Bool) (s : SimState) (ev : Event) (p : ℚ)
    (dl : List Debt) (t : SimState) (h : finishOutflow debug s ev p dl = .ok t) :
    t.sched = s.sched ++ [{ date := ev.date, type := ev.type,
                            description := ev.name, amount := -p,
                            balance := s.balance - p }] := by
  unfold finishOutflow at h
  by_cases hc : s.balance - p < 0 ∧ ¬ debug
  · rw [if_pos hc] at h
    exact absurd h (by simp)
  · rw [if_neg hc] at h
    injection h with h
    subst h
    rfl

theorem applyOther_sched (fuel : ℕ) (debug : Bool) (today : Date) (s : SimState)
    (ev : Event) (t : SimState)
    (h : applyOther fuel debug today s ev = some (.ok t)) :
    ∃ new, t.sched = s.sched ++ new ∧ ∀ x ∈ new, x.date = ev.date := by
  cases ht : ev.type with
  | debt_add =>
    cases hn : ev.debt with
    | none => simp [applyOther, ht, hn] at h
    | some n =>
      cases hf : findDebt s.debts n with
      | none => simp [applyOther, ht, hn, hf] at h
      | some debt =>
        cases hc : imAddCharge { debt with balance := debt.balance + ev.amount }
            ev.amount ev.date with
        | none => simp [applyOther, ht, hn, hf, hc] at h
        | some dc =>
          cases hr : recomputeAndPatch fuel dc today s.events with
          | none => simp [applyOther, ht, hn, hf, hc, hr] at h
          | some pr =>
            simp only [applyOther, ht, hn, hf, hc, hr, Option.pure_def,
              Option.bind_eq_bind, Option.some_bind, Option.some.injEq,
              Except.ok.injEq] at h
            subst h
            refine ⟨_, rfl, ?_⟩
            intro x hx
            rw [List.mem_singleton] at hx
            rw [hx]
  | debt_min =>
    cases hf : findDebt s.debts (ev.debt.getD ev.name) with
    | none => simp [applyOther, ht, hf] at h
    | some debt =>
      by_cases hp : min ev.amount debt.balance ≤ 0
      · simp only [applyOther, ht, hf, Option.pure_def, Option.bind_eq_bind,
          Option.some_bind, if_pos hp, Option.some.injEq, Except.ok.injEq] at h
        subst h
        exact ⟨[], by simp, by simp⟩
      · simp only [applyOther, ht, hf, Option.pure_def, Option.bind_eq_bind,
          Option.some_bind, if_neg hp, Option.some.injEq] at h
        refine ⟨_, finishOutflow_sched debug s ev _ _ t h, ?_⟩
        intro x hx
        rw [List.mem_singleton] at hx
        rw [hx]
  | paycheck =>
    simp only [applyOther, ht, Option.pure_def, Option.some.injEq] at h
    refine ⟨_, finishOutflow_sched debug s ev _ _ t h, ?_⟩
    intro x hx
    rw [List.mem_singleton] at hx
    rw [hx]
  | bill =>
    simp only [applyOther, ht, Option.pure_def, Option.some.injEq] at h
    refine ⟨_, finishOutflow_sched debug s ev _ _ t h, ?_⟩
    intro x hx
    rw [List.mem_singleton] at hx
    rw [hx]
  | goal =>
    simp only [applyOther, ht, Option.pure_def, Option.some.injEq] at h
    refine ⟨_, finishOutflow_sched debug s ev _ _ t h, ?_⟩
    intro x hx
    rw [List.mem_singleton] at hx
    rw [hx]
  | extra =>
    simp only [applyOther, ht, Option.pure_def, Option.some.injEq] at h
    refine ⟨_, finishOutflow_sched debug s ev _ _ t h, ?_⟩
    intro x hx
    rw [List.mem_singleton] at hx
    rw [hx]

theorem applyOthers_sched (fuel : ℕ) (debug : Bool) (today : Date)
    (l : List Event) (s : SimState) (t : SimState)
    (hl : ∀ ev ∈ l, ev.date = today)
    (h : applyOthers fuel debug today s l = some (.ok t)) :
    ∃ new, t.sched = s.sched ++ new ∧ ∀ x ∈ new, x.date = today := by
  induction l generalizing s with
  | nil =>
    simp only [applyOthers, Option.some.injEq, Except.ok.injEq] at h
    subst h
    exact ⟨[], by simp, by simp⟩
  | cons ev rest ih =>
    rw [applyOthers] at h
    cases h1 : applyOther fuel debug today s ev with
    | none => rw [h1] at h; exact absurd h (by simp)
    | some r =>
      rw [h1] at h
      cases r with
      | error d =>
        simp only [Option.pure_def, Option.bind_eq_bind, Option.some_bind] at h
        exact absurd h (by simp)
      | ok s2 =>
        simp only [Option.pure_def, Option.bind_eq_bind, Option.some_bind] at h
        obtain ⟨n1, hs1, hd1⟩ := applyOther_sched fuel debug today s ev s2 h1
        obtain ⟨n2, hs2, hd2⟩ := ih s2 (fun e he => hl e (by simp [he])) h
        refine ⟨n1 ++ n2, ?_, ?_⟩
        · rw [hs2, hs1, List.append_assoc]
        · intro x hx
          rcases List.mem_append.1 hx with hx | hx
          · rw [hd1 x hx]
            exact hl ev (by simp)
          · exact hd2 x hx

theorem extraStep_sched (today : Date) (safe : ℚ) (s : SimState) :
    ∃ new, (extraStep today safe s).sched = s.sched ++ new ∧
      ∀ x ∈ new, x.date = today := by
  unfold extraStep
  by_cases h0 : 0 < safe
  · rw [if_pos h0]
    cases hj : selectTargetIdx s.debts with
    | none =>
      simp only [hj]
      exact ⟨[], by simp, by simp⟩
    | some j =>
      simp only [hj]
      cases hg : s.debts.get? j with
      | none =>
        simp only [hg]
        exact ⟨[], by simp, by simp⟩
      | some target =>
        simp only [hg]
        by_cases hp : 0 < min safe target.balance
        · rw [if_pos hp]
          refine ⟨_, rfl, ?_⟩
          intro x hx
          rw [List.mem_singleton] at hx
          rw [hx]
        · rw [if_neg hp]
          exact ⟨[], by simp, by simp⟩
  · rw [if_neg h0]
    exact ⟨[], by simp, by simp⟩

theorem monthEndGo_sched (fuel : ℕ) (today : Date) (cash : ℚ)
    (ds : List Debt) (events : List Event) (entries : List ScheduleEntry)
    (r : List Debt × List Event × List ScheduleEntry)
    (h : monthEndGo fuel today cash ds events entries = some r) :
    ∃ new, r.2.2 = entries ++ new ∧ ∀ x ∈ new, x.date = today := by
  induction ds generalizing events entries r with
  | nil =>
    simp only [monthEndGo, Option.some.injEq] at h
    subst h
    exact ⟨[], by simp, by simp⟩
  | cons debt rest ih =>
    rw [monthEndGo] at h
    cases hm : imMonthEnd debt today with
    | none => rw [hm] at h; exact absurd h (by simp)
    | some rb =>
      rw [hm] at h
      simp only [Option.pure_def, Option.bind_eq_bind, Option.some_bind] at h
      by_cases hb : 0 < rb.2
      · rw [if_pos hb] at h
        cases hr : recomputeAndPatch fuel
            { rb.1 with
              balance := rb.1.balance + rb.2,
              interest_charges := rb.1.interest_charges + rb.2,
              min_payment_args :=
                { rb.1.min_payment_args with interest_billed := some rb.2 } }
            today events with
        | none => rw [hr] at h; exact absurd h (by simp)
        | some pr =>
          rw [hr] at h
          simp only [Option.some_bind] at h
          cases hrest : monthEndGo fuel today cash rest pr.2
              (entries ++ [{ date := today, type := EType.debt_add,
                             description := debt.name ++ " interest",
                             amount := rb.2, balance := cash }]) with
          | none => rw [hrest] at h; exact absurd h (by simp)
          | some r2 =>
            rw [hrest] at h
            simp only [Option.some_bind, Option.some.injEq] at h
            obtain ⟨new2, hs2, hd2⟩ := ih pr.2 _ r2 hrest
            subst h
            refine ⟨{ date := today, type := EType.debt_add,
                      description := debt.name ++ " interest", amount := rb.2,
                      balance := cash } :: new2, ?_, ?_⟩
            · simpa using hs2
            · intro x hx
              rcases List.mem_cons.1 hx with hx | hx
              · rw [hx]
              · exact hd2 x hx
      · rw [if_neg hb] at h
        cases hrest : monthEndGo fuel today cash rest events entries with
        | none => rw [hrest] at h; exact absurd h (by simp)
        | some r2 =>
          rw [hrest] at h
          simp only [Option.some_bind, Option.some.injEq] at h
          obtain ⟨new2, hs2, hd2⟩ := ih events entries r2 hrest
          subst h
          exact ⟨new2, hs2, hd2⟩

theorem monthEndStep_sched (fuel : ℕ) (today : Date) (s t : SimState)
    (h : monthEndStep fuel today s = some t) :
    ∃ new, t.sched = s.sched ++ new ∧ ∀ x ∈ new, x.date = today := by
  unfold monthEndStep at h
  by_cases hb : (Date.succ today).month ≠ today.month
  · rw [if_pos hb] at h
    cases hr : monthEndGo fuel today s.balance s.debts s.events s.sched with
    | none => rw [hr] at h; exact absurd h (by simp)
    | some r =>
      rw [hr] at h
      simp only [Option.pure_def, Option.bind_eq_bind, Option.some_bind,
        Option.some.injEq] at h
      subst h
      exact monthEndGo_sched fuel today s.balance s.debts s.events s.sched r hr
  · rw [if_neg hb] at h
    injection h with h
    subst h
    exact ⟨[], by simp, by simp⟩

theorem dayStep_sched (fuel : ℕ) (debug : Bool) (e today : Date)
    (s t : SimState) (h : dayStep fuel debug e today s = some (.ok t)) :
    ∃ new, t.sched = s.sched ++ new ∧ ∀ x ∈ new, x.date = today := by
  have hpays : ∀ ev ∈ (s.events.takeWhile
      (fun ev => ev.date = today)).filter (fun ev => ev.type = .paycheck),
      ev.date = today := by
    intro ev hev
    have := List.mem_takeWhile_imp (List.mem_filter.1 hev).1
    exact of_decide_eq_true this
  have hothers : ∀ ev ∈ (s.events.takeWhile
      (fun ev => ev.date = today)).filter (fun ev => ¬ ev.type = .paycheck),
      ev.date = today := by
    intro ev hev
    have := List.mem_takeWhile_imp (List.mem_filter.1 hev).1
    exact of_decide_eq_true this
  rw [dayStep] at h
  simp only [Option.pure_def, Option.bind_eq_bind, Option.bind_eq_some] at h
  obtain ⟨r, h1, h2⟩ := h
  cases r with
  | error d => exact absurd h2 (by simp)
  | ok s2 =>
    simp only [Option.bind_eq_some] at h2
    obtain ⟨fl, h3, h4⟩ := h2
    obtain ⟨pnew, hps, hpd⟩ := foldl_applyPaycheck_sched
      ((s.events.takeWhile (fun ev => ev.date = today)).filter
        (fun ev => ev.type = .paycheck))
      { s with
        events :=
          s.events.drop
            (s.events.takeWhile (fun ev => ev.date = today)).length }
      today hpays
    obtain ⟨onew, hos, hod⟩ := applyOthers_sched fuel debug today _ _ s2 hothers h1
    have finish : ∀ (u : SimState), u.sched = s2.sched →
        (((accrueAll today (extraStep today
            (max 0 (projected_min_balance s2.balance fl.1 fl.2).1) u).debts).bind
          fun debts =>
            (monthEndStep fuel today
              { extraStep today
                  (max 0 (projected_min_balance s2.balance fl.1 fl.2).1) u with
                debts := debts }).bind
              fun s4 => some (Except.ok s4) :
            Option (Except Date SimState)) = some (Except.ok t)) →
        ∃ new, t.sched = s.sched ++ new ∧ ∀ x ∈ new, x.date = today := by
      intro u hu hrun
      simp only [Option.bind_eq_some] at hrun
      obtain ⟨debts2, h5, h6⟩ := hrun
      simp only [Option.bind_eq_some, Option.some.injEq] at h6
      obtain ⟨s3, h7, h8⟩ := h6
      injection h8 with h8
      subst h8
      obtain ⟨enew, hes, hed⟩ := extraStep_sched today
        (max 0 (projected_min_balance s2.balance fl.1 fl.2).1) u
      obtain ⟨mnew, hms, hmd⟩ := monthEndStep_sched fuel today _ _ h7
      refine ⟨pnew ++ onew ++ enew ++ mnew, ?_, ?_⟩
      · rw [hms]
        simp [hes, hu, hos, hps]
      · intro x hx
        rcases List.mem_append.1 hx with hx | hx
        · rcases List.mem_append.1 hx with hx | hx
          · rcases List.mem_append.1 hx with hx | hx
            · exact hpd x hx
            · exact hod x hx
          · exact hed x hx
        · exact hmd x hx
    rcases hch : (projected_min_balance s2.balance fl.1 fl.2).2 with _ | nd
    · rw [hch] at h4
      dsimp only [] at h4
      exact finish s2 rfl h4
    · rw [hch] at h4
      dsimp only [] at h4
      by_cases hle : Date.le nd e
      · rw [if_pos hle] at h4
        by_cases hdbg : ¬ debug
        · rw [if_pos hdbg] at h4
          exact absurd h4 (by simp)
        · rw [if_neg hdbg] at h4
          dsimp only [] at h4
          exact finish { s2 with
            negHit := if s2.negHit = none then some nd else s2.negHit } rfl h4
      · rw [if_neg hle] at h4
        dsimp only [] at h4
        exact finish s2 rfl h4

theorem runLoop_sched (fuel : ℕ) (debug : Bool) (e : Date) (n : ℕ)
    (today : Date) (s t : SimState)
    (h : runLoop fuel debug e n today s = some (.ok t)) :
    ∃ new, t.sched = s.sched ++ new ∧
      ∀ x ∈ new, ∃ k, k < n ∧ x.date = addDays today k := by
  induction n generalizing today s with
  | zero =>
    simp only [runLoop, Option.some.injEq, Except.ok.injEq] at h
    subst h
    exact ⟨[], by simp, by simp⟩
  | succ m ih =>
    rw [runLoop] at h
    simp only [Option.pure_def, Option.bind_eq_bind, Option.bind_eq_some] at h
    obtain ⟨r, h1, h2⟩ := h
    cases r with
    | error d => exact absurd h2 (by simp)
    | ok s2 =>
      obtain ⟨new1, hs1, hd1⟩ := dayStep_sched fuel debug e today s s2 h1
      obtain ⟨new2, hs2, hd2⟩ := ih (Date.succ today) s2 h2
      refine ⟨new1 ++ new2, ?_, ?_⟩
      · rw [hs2, hs1, List.append_assoc]
      · intro x hx
        rcases List.mem_append.1 hx with hx | hx
        · exact ⟨0, Nat.succ_pos m, (hd1 x hx).symm ▸ rfl⟩
        · obtain ⟨k, hk, hkd⟩ := hd2 x hx
          exact ⟨k + 1, by omega, by rw [hkd]; rfl⟩

theorem Date.not_le_of_lt {a b : Date} (h : Date.lt a b) : ¬ Date.le b a :=
  fun h2 => Date.lt_irrefl a (Date.lt_of_lt_of_le h h2)

theorem lookaheadEnd_eq_of_le365 (start : Date) (days : ℕ) (h : days ≤ 365) :
    lookaheadEnd start days = addDays start 365 := by
  unfold lookaheadEnd
  rcases Nat.lt_or_ge days 365 with hlt | hge
  · rw [if_pos (Date.addDays_lt_addDays hlt start)]
  · have : days = 365 := le_antisymm h hge
    subst this
    rw [if_neg (Date.lt_irrefl _)]

theorem schedule_decomp (fuel : ℕ) (start : Date) (bal : ℚ)
    (p : List PaycheckSpec) (b : List BillSpec) (di : List DebtInput)
    (g : List GoalSpec) (days : ℕ) (debug : Bool)
    (schedr : List ScheduleEntry) (res : List DebtResult) (neg : Option Date)
    (h : daily_avalanche_schedule fuel start bal p b di g days debug =
      some (.ok (schedr, res, neg))) :
    ∃ evs sF,
      buildEvents fuel p b g (initDebts di) start (lookaheadEnd start days) =
        some evs ∧
      runLoop fuel debug (addDays start days) (days + 1) start
        { balance := bal, debts := initDebts di, events := evs,
          sched := [], negHit := none } = some (.ok sF) ∧
      schedr = sF.sched ∧ neg = sF.negHit ∧
      buildResults fuel (addDays start days) sF.debts = some res := by
  rw [daily_avalanche_schedule] at h
  simp only [Option.pure_def, Option.bind_eq_bind, Option.bind_eq_some] at h
  obtain ⟨evs, h1, h2⟩ := h
  obtain ⟨r, h3, h4⟩ := h2
  cases r with
  | error d =>
    dsimp only [] at h4
    exact absurd h4 (by simp)
  | ok sF =>
    dsimp only [] at h4
    simp only [Option.bind_eq_some, Option.some.injEq] at h4
    obtain ⟨res2, h5, h6⟩ := h4
    injection h6 with h6
    injection h6 with h6a h6b
    injection h6b with h6b h6c
    exact ⟨evs, sF, h1, h3, h6a.symm, h6c.symm, h6b ▸ h5⟩

/-- In non-debug mode the horizon end feeds only the shortfall error
check, so a day that completes normally against a later end also
completes, identically, against an earlier one. -/
theorem dayStep_end_mono (fuel : ℕ) (e1 e2 today : Date) (s t : SimState)
    (hle : Date.le e1 e2)
    (h : dayStep fuel false e2 today s = some (.ok t)) :
    dayStep fuel false e1 today s = some (.ok t) := by
  rw [dayStep] at h ⊢
  simp only [Option.pure_def, Option.bind_eq_bind, Option.bind_eq_some] at h
  obtain ⟨r, h1, h2⟩ := h
  cases r with
  | error d => exact absurd h2 (by simp)
  | ok s2 =>
    rw [h1]
    simp only [Option.pure_def, Option.bind_eq_bind, Option.some_bind]
    simp only [Option.bind_eq_some] at h2
    obtain ⟨fl, h3, h4⟩ := h2
    rw [h3]
    simp only [Option.some_bind]
    rcases hch : (projected_min_balance s2.balance fl.1 fl.2).2 with _ | nd
    · rw [hch] at h4
      dsimp only [] at h4 ⊢
      exact h4
    · rw [hch] at h4
      dsimp only [] at h4 ⊢
      by_cases hle2 : Date.le nd e2
      · rw [if_pos hle2] at h4
        rw [if_pos (by decide)] at h4
        dsimp only [] at h4
        exact absurd h4 (by simp)
      · rw [if_neg hle2] at h4
        have hle1 : ¬ Date.le nd e1 := fun hc => hle2 (Date.le_trans hc hle)
        rw [if_neg hle1]
        dsimp only [] at h4 ⊢
        exact h4

theorem runLoop_end_mono (fuel : ℕ) (e1 e2 : Date) (n : ℕ) (today : Date)
    (s t : SimState) (hle : Date.le e1 e2)
    (h : runLoop fuel false e2 n today s = some (.ok t)) :
    runLoop fuel false e1 n today s = some (.ok t) := by
  induction n generalizing today s with
  | zero => exact h
  | succ m ih =>
    rw [runLoop] at h ⊢
    simp only [Option.pure_def, Option.bind_eq_bind, Option.bind_eq_some] at h
    obtain ⟨r, h1, h2⟩ := h
    cases r with
    | error d => exact absurd h2 (by simp)
    | ok s2 =>
      rw [dayStep_end_mono fuel e1 e2 today s s2 hle h1]
      simp only [Option.pure_def, Option.bind_eq_bind, Option.some_bind]
      exact ih (Date.succ today) s2 h2

/-- C6 amended: when both horizons are at most 365 days (so both runs build
their event lists against the same one-year lookahead window), in either
debug mode, if both runs return normally then the schedule of an `N`-day run
equals the schedule of an `M`-day run (`N < M`) filtered to entries dated at
most `start + N` days.  The unamended claim fails because a horizon beyond
365 days widens the lookahead window and changes the projector's decisions
inside the shorter horizon. -/
theorem horizon_independence_filtered
    (fuel : ℕ) (start : Date) (bal : ℚ) (p : List PaycheckSpec)
    (b : List BillSpec) (di : List DebtInput) (g : List GoalSpec)
    (N M : ℕ) (debug : Bool) (hNM : N < M) (hM : M ≤ 365)
    (schedN schedM : List ScheduleEntry) (resN resM : List DebtResult)
    (negN negM : Option Date)
    (hN : daily_avalanche_schedule fuel start bal p b di g N debug =
      some (.ok (schedN, resN, negN)))
    (hM2 : daily_avalanche_schedule fuel start bal p b di g M debug =
      some (.ok (schedM, resM, negM))) :
    schedN = schedM.filter
      (fun x => decide (Date.le x.date (addDays start N))) := by
  obtain ⟨evsN, sFN, he1, hr1, hs1, _, _⟩ :=
    schedule_decomp fuel start bal p b di g N debug schedN resN negN hN
  obtain ⟨evsM, sFM, he2, hr2, hs2, _, _⟩ :=
    schedule_decomp fuel start bal p b di g M debug schedM resM negM hM2
  rw [lookaheadEnd_eq_of_le365 start N (by omega)] at he1
  rw [lookaheadEnd_eq_of_le365 start M hM] at he2
  have hevs : evsM = evsN := by
    have h12 := he1.symm.trans he2
    injection h12 with h12
    exact h12.symm
  subst hevs
  have hsplit : M + 1 = (N + 1) + (M - N) := by omega
  rw [hsplit, runLoop_split] at hr2
  cases hpre : runLoop fuel debug (addDays start M) (N + 1) start
      { balance := bal, debts := initDebts di, events := evsM,
        sched := [], negHit := none } with
  | none =>
    rw [hpre] at hr2
    exact absurd hr2 (by simp)
  | some r =>
    rw [hpre] at hr2
    cases r with
    | error d => exact absurd hr2 (by simp)
    | ok sM1 =>
      dsimp only [] at hr2
      -- relate the two prefixes: sM1.sched = sFN.sched in both debug modes
      have hsched : sM1.sched = sFN.sched := by
        cases hdbg : debug with
        | true =>
          have heq : OptEquiv
              (runLoop fuel true (addDays start N) (N + 1) start
                { balance := bal, debts := initDebts di, events := evsM,
                  sched := [], negHit := none })
              (runLoop fuel true (addDays start M) (N + 1) start
                { balance := bal, debts := initDebts di, events := evsM,
                  sched := [], negHit := none }) :=
            runLoop_setNeg fuel (addDays start N) (addDays start M) (N + 1)
              start
              { balance := bal, debts := initDebts di, events := evsM,
                sched := [], negHit := none } none
          rw [hdbg] at hr1 hpre
          rw [hr1, hpre] at heq
          obtain ⟨n, hn⟩ := heq
          rw [hn]
          rfl
        | false =>
          rw [hdbg] at hr1 hpre
          have hmono := runLoop_end_mono fuel (addDays start N)
            (addDays start M) (N + 1) start
            { balance := bal, debts := initDebts di, events := evsM,
              sched := [], negHit := none } sM1
            (Date.addDays_le_addDays (le_of_lt hNM) start) hpre
          have := hr1.symm.trans hmono
          injection this with this
          injection this with this
          rw [this]
      obtain ⟨tail, htail, htaildates⟩ := runLoop_sched fuel debug
        (addDays start M) (M - N) (addDays start (N + 1)) sM1 sFM hr2
      obtain ⟨pre, hpre2, hpredates⟩ := runLoop_sched fuel debug
        (addDays start N) (N + 1) start
        { balance := bal, debts := initDebts di, events := evsM,
          sched := [], negHit := none } sFN hr1
      simp only [List.nil_append] at hpre2
      rw [hs1, hs2, htail, hsched, List.filter_append]
      have hkeep : sFN.sched.filter
          (fun x => decide (Date.le x.date (addDays start N))) = sFN.sched := by
        apply List.filter_eq_self.mpr
        intro x hx
        obtain ⟨k, hk, hkd⟩ := hpredates x (hpre2 ▸ hx)
        rw [hkd]
        exact decide_eq_true (Date.addDays_le_addDays (by omega) start)
      have hdrop : tail.filter
          (fun x => decide (Date.le x.date (addDays start N))) = [] := by
        apply List.filter_eq_nil_iff.mpr
        intro x hx
        obtain ⟨k, hk, hkd⟩ := htaildates x hx
        rw [hkd, addDays_addDays]
        have hlt := Date.addDays_lt_addDays (show N < N + 1 + k by omega) start
        simp only [decide_eq_true_eq]
        exact Date.not_le_of_lt hlt
      rw [hkeep, hdrop, List.append_nil]

set_option maxRecDepth 100000 in
theorem c6_addDays_chunks :
    addDays (⟨2025,1,1⟩ : Date) 365 = ⟨2026,1,1⟩ ∧
    addDays (⟨2025,1,1⟩ : Date) 366 = ⟨2026,1,2⟩ := by
  have a1 : addDays (⟨2025,1,1⟩ : Date) 100 = ⟨2025,4,11⟩ := by decide
  have a2 : addDays (⟨2025,4,11⟩ : Date) 100 = ⟨2025,7,20⟩ := by decide
  have a3 : addDays (⟨2025,7,20⟩ : Date) 100 = ⟨2025,10,28⟩ := by decide
  have a4 : addDays (⟨2025,10,28⟩ : Date) 65 = ⟨2026,1,1⟩ := by decide
  have b1 : addDays (addDays (addDays (addDays (⟨2025,1,1⟩ : Date) 100) 100)
      100) 65 = ⟨2026,1,1⟩ := by
    rw [a1, a2, a3, a4]
  rw [addDays_addDays, addDays_addDays, addDays_addDays] at b1
  norm_num at b1
  have b2 : addDays (addDays (⟨2025,1,1⟩ : Date) 365) 1 = ⟨2026,1,2⟩ := by
    rw [b1]
    decide
  rw [addDays_addDays] at b2
  norm_num at b2
  exact ⟨b1, b2⟩

theorem c6_looks :
    lookaheadEnd ⟨2025,1,1⟩ 0 = ⟨2026,1,1⟩ ∧
    lookaheadEnd ⟨2025,1,1⟩ 366 = ⟨2026,1,2⟩ := by
  obtain ⟨e365, e366⟩ := c6_addDays_chunks
  constructor
  · unfold lookaheadEnd
    rw [e365]
    rw [show addDays (⟨2025,1,1⟩ : Date) 0 = ⟨2025,1,1⟩ from rfl]
    rw [if_pos (by decide)]
  · unfold lookaheadEnd
    rw [e365, e366]
    rw [if_neg (by decide)]

set_option maxRecDepth 200000 in
/-- C6 counterexample: a bill dated `start + 366` days is invisible to the
365-day lookahead of a 0-day run (which therefore releases surplus to a
debt on day 0) but visible to a 366-day run (which therefore does not), so
the 0-day schedule is not the restriction of the 366-day schedule. -/
theorem horizon_lookahead_counterexample :
    daily_avalanche_schedule 500 ⟨2025,1,1⟩ 100 [] [c6bill] [c6debt] [] 0 true =
      some (.ok (c6schedN, c6resN, none)) ∧
    daily_avalanche_schedule 500 ⟨2025,1,1⟩ 100 [] [c6bill] [c6debt] [] 366 true =
      some (.ok (c6schedM, c6resM, some ⟨2026,1,2⟩)) ∧
    c6schedN ≠ c6schedM.filter
      (fun x => decide (Date.le x.date (addDays ⟨2025,1,1⟩ 0))) := by
  obtain ⟨hl0, hl366⟩ := c6_looks
  obtain ⟨e365, e366⟩ := c6_addDays_chunks
  refine ⟨?_, ?_, ?_⟩
  · rw [daily_avalanche_schedule]
    rw [hl0]
    decide
  · rw [daily_avalanche_schedule]
    rw [hl366, e366]
    decide
  · decide

set_option maxRecDepth 200000 in
/-- C3 counterexample: a negative paycheck applied on day 0 drives the cash
balance to -5 with debug off, yet the run returns normally with the negative
balance logged and no shortfall recorded. -/
theorem shortfall_error_counterexample :
    daily_avalanche_schedule 100 ⟨2025,1,1⟩ 0 [c3pay] [] [] [] 0 false =
      some (.ok (c3sched, [], none)) ∧
    ∃ e ∈ c3sched, e.balance < 0 := by
  constructor
  · have hl0 : lookaheadEnd ⟨2025,1,1⟩ 0 = ⟨2026,1,1⟩ := (c6_looks).1
    rw [daily_avalanche_schedule, hl0]
    decide
  · decide

theorem negPres_applyPaycheck (s : SimState) (ev : Event) :
    (applyPaycheck s ev).negHit = s.negHit := rfl

theorem negPres_foldl_applyPaycheck (l : List Event) (s : SimState) :
    (l.foldl applyPaycheck s).negHit = s.negHit := by
  induction l generalizing s with
  | nil => rfl
  | cons ev rest ih => rw [List.foldl_cons, ih, negPres_applyPaycheck]

theorem negPres_finishOutflow (debug : Bool) (s : SimState) (ev : Event)
    (p : ℚ) (dl : List Debt) (t : SimState) (d : Date)
    (h : finishOutflow debug s ev p dl = .ok t) (hd : s.negHit = some d) :
    t.negHit = some d := by
  unfold finishOutflow at h
  by_cases hc : s.balance - p < 0 ∧ ¬ debug
  · rw [if_pos hc] at h
    exact absurd h (by simp)
  · rw [if_neg hc] at h
    injection h with h
    subst h
    show (if s.balance - p < 0 ∧ s.negHit = none then some ev.date
      else s.negHit) = some d
    rw [hd]
    simp

theorem negPres_applyOther (fuel : ℕ) (debug : Bool) (today : Date)
    (s : SimState) (ev : Event) (t : SimState) (d : Date)
    (h : applyOther fuel debug today s ev = some (.ok t))
    (hd : s.negHit = some d) : t.negHit = some d := by
  cases ht : ev.type with
  | debt_add =>
    cases hn : ev.debt with
    | none => simp [applyOther, ht, hn] at h
    | some n =>
      cases hf : findDebt s.debts n with
      | none => simp [applyOther, ht, hn, hf] at h
      | some debt =>
        cases hc : imAddCharge { debt with balance := debt.balance + ev.amount }
            ev.amount ev.date with
        | none => simp [applyOther, ht, hn, hf, hc] at h
        | some dc =>
          cases hr : recomputeAndPatch fuel dc today s.events with
          | none => simp [applyOther, ht, hn, hf, hc, hr] at h
          | some pr =>
            simp only [applyOther, ht, hn, hf, hc, hr, Option.pure_def,
              Option.bind_eq_bind, Option.some_bind, Option.some.injEq,
              Except.ok.injEq] at h
            subst h
            exact hd
  | debt_min =>
    cases hf : findDebt s.debts (ev.debt.getD ev.name) with
    | none => simp [applyOther, ht, hf] at h
    | some debt =>
      by_cases hp : min ev.amount debt.balance ≤ 0
      · simp only [applyOther, ht, hf, Option.pure_def, Option.bind_eq_bind,
          Option.some_bind, if_pos hp, Option.some.injEq, Except.ok.injEq] at h
        subst h
        exact hd
      · simp only [applyOther, ht, hf, Option.pure_def, Option.bind_eq_bind,
          Option.some_bind, if_neg hp, Option.some.injEq] at h
        exact negPres_finishOutflow debug s ev _ _ t d h hd
  | paycheck =>
    simp only [applyOther, ht, Option.pure_def, Option.some.injEq] at h
    exact negPres_finishOutflow debug s ev _ _ t d h hd
  | bill =>
    simp only [applyOther, ht, Option.pure_def, Option.some.injEq] at h
    exact negPres_finishOutflow debug s ev _ _ t d h hd
  | goal =>
    simp only [applyOther, ht, Option.pure_def, Option.some.injEq] at h
    exact negPres_finishOutflow debug s ev _ _ t d h hd
  | extra =>
    simp only [applyOther, ht, Option.pure_def, Option.some.injEq] at h
    exact negPres_finishOutflow debug s ev _ _ t d h hd

theorem negPres_applyOthers (fuel : ℕ) (debug : Bool) (today : Date)
    (l : List Event) (s : SimState) (t : SimState) (d : Date)
    (h : applyOthers fuel debug today s l = some (.ok t))
    (hd : s.negHit = some d) : t.negHit = some d := by
  induction l generalizing s with
  | nil =>
    simp only [applyOthers, Option.some.injEq, Except.ok.injEq] at h
    subst h
    exact hd
  | cons ev rest ih =>
    rw [applyOthers] at h
    cases h1 : applyOther fuel debug today s ev with
    | none => rw [h1] at h; exact absurd h (by simp)
    | some r =>
      rw [h1] at h
      cases r with
      | error d2 =>
        simp only [Option.pure_def, Option.bind_eq_bind, Option.some_bind] at h
        exact absurd h (by simp)
      | ok s2 =>
        simp only [Option.pure_def, Option.bind_eq_bind, Option.some_bind] at h
        exact ih s2 h (negPres_applyOther fuel debug today s ev s2 d h1 hd)

theorem negPres_extraStep (today : Date) (safe : ℚ) (s : SimState) :
    (extraStep today safe s).negHit = s.negHit := by
  unfold extraStep
  by_cases h0 : 0 < safe
  · rw [if_pos h0]
    cases hj : selectTargetIdx s.debts with
    | none => simp only [hj]
    | some j =>
      simp only [hj]
      cases hg : s.debts.get? j with
      | none => simp only [hg]
      | some target =>
        simp only [hg]
        by_cases hp : 0 < min safe target.balance
        · rw [if_pos hp]
        · rw [if_neg hp]
  · rw [if_neg h0]

theorem negPres_monthEndStep (fuel : ℕ) (today : Date) (s t : SimState)
    (h : monthEndStep fuel today s = some t) : t.negHit = s.negHit := by
  unfold monthEndStep at h
  by_cases hb : (Date.succ today).month ≠ today.month
  · rw [if_pos hb] at h
    cases hr : monthEndGo fuel today s.balance s.debts s.events s.sched with
    | none => rw [hr] at h; exact absurd h (by simp)
    | some r =>
      rw [hr] at h
      simp only [Option.pure_def, Option.bind_eq_bind, Option.some_bind,
        Option.some.injEq] at h
      subst h
      rfl
  · rw [if_neg hb] at h
    injection h with h
    subst h
    rfl

theorem negPres_dayStep (fuel : ℕ) (debug : Bool) (e today : Date)
    (s t : SimState) (d : Date)
    (h : dayStep fuel debug e today s = some (.ok t))
    (hd : s.negHit = some d) : t.negHit = some d := by
  rw [dayStep] at h
  simp only [Option.pure_def, Option.bind_eq_bind, Option.bind_eq_some] at h
  obtain ⟨r, h1, h2⟩ := h
  cases r with
  | error d2 => exact absurd h2 (by simp)
  | ok s2 =>
    have hs2 : s2.negHit = some d := by
      refine negPres_applyOthers fuel debug today _ _ s2 d h1 ?_
      rw [negPres_foldl_applyPaycheck]
      exact hd
    simp only [Option.bind_eq_some] at h2
    obtain ⟨fl, h3, h4⟩ := h2
    have finish : ∀ (u : SimState), u.negHit = some d →
        (((accrueAll today (extraStep today
            (max 0 (projected_min_balance s2.balance fl.1 fl.2).1) u).debts).bind
          fun debts =>
            (monthEndStep fuel today
              { extraStep today
                  (max 0 (projected_min_balance s2.balance fl.1 fl.2).1) u with
                debts := debts }).bind
              fun s4 => some (Except.ok s4) :
            Option (Except Date SimState)) = some (Except.ok t)) →
        t.negHit = some d := by
      intro u hu hrun
      simp only [Option.bind_eq_some, Option.some.injEq] at hrun
      obtain ⟨debts2, h5, h6⟩ := hrun
      obtain ⟨s3, h7, h8⟩ := h6
      injection h8 with h8
      subst h8
      have := negPres_monthEndStep fuel today _ _ h7
      rw [this]
      show (extraStep today _ u).negHit = some d
      rw [negPres_extraStep]
      exact hu
    rcases hch : (projected_min_balance s2.balance fl.1 fl.2).2 with _ | nd
    · rw [hch] at h4
      dsimp only [] at h4
      exact finish s2 hs2 h4
    · rw [hch] at h4
      dsimp only [] at h4
      by_cases hle : Date.le nd e
      · rw [if_pos hle] at h4
        by_cases hdbg : ¬ debug
        · rw [if_pos hdbg] at h4
          exact absurd h4 (by simp)
        · rw [if_neg hdbg] at h4
          dsimp only [] at h4
          refine finish { s2 with
            negHit := if s2.negHit = none then some nd else s2.negHit } ?_ h4
          show (if s2.negHit = none then some nd else s2.negHit) = some d
          rw [hs2]
          simp
      · rw [if_neg hle] at h4
        dsimp only [] at h4
        exact finish s2 hs2 h4

theorem negPres_runLoop (fuel : ℕ) (debug : Bool) (e : Date) (n : ℕ)
    (today : Date) (s t : SimState) (d : Date)
    (h : runLoop fuel debug e n today s = some (.ok t))
    (hd : s.negHit = some d) : t.negHit = some d := by
  induction n generalizing today s with
  | zero =>
    simp only [runLoop, Option.some.injEq, Except.ok.injEq] at h
    subst h
    exact hd
  | succ m ih =>
    rw [runLoop] at h
    simp only [Option.pure_def, Option.bind_eq_bind, Option.bind_eq_some] at h
    obtain ⟨r, h1, h2⟩ := h
    cases r with
    | error d2 => exact absurd h2 (by simp)
    | ok s2 =>
      exact ih (Date.succ today) s2 h2
        (negPres_dayStep fuel debug e today s s2 d h1 hd)

theorem schedule_debug_no_error (fuel : ℕ) (start : Date) (bal : ℚ)
    (p : List PaycheckSpec) (b : List BillSpec) (di : List DebtInput)
    (g : List GoalSpec) (days : ℕ) (d : Date) :
    daily_avalanche_schedule fuel start bal p b di g days true ≠
      some (.error d) := by
  intro h
  rw [daily_avalanche_schedule] at h
  simp only [Option.pure_def, Option.bind_eq_bind, Option.bind_eq_some] at h
  obtain ⟨evs, h1, h2⟩ := h
  obtain ⟨r, h3, h4⟩ := h2
  cases r with
  | error d2 =>
    dsimp only [] at h4
    injection h4 with h4
    injection h4 with h4
    subst h4
    exact runLoop_debug_no_error _ _ _ _ _ _ h3
  | ok sF =>
    dsimp only [] at h4
    simp only [Option.bind_eq_some, Option.some.injEq] at h4
    obtain ⟨res2, h5, h6⟩ := h4
    exact Except.noConfusion h6

theorem outflow_error_nondebug (fuel : ℕ) (today : Date) (s : SimState)
    (ev : Event) (ht : ev.type = .bill ∨ ev.type = .goal)
    (hneg : s.balance - ev.amount < 0) :
    applyOther fuel false today s ev = some (.error ev.date) := by
  have hfo : finishOutflow false s ev ev.amount s.debts = .error ev.date := by
    unfold finishOutflow
    rw [if_pos ⟨hneg, by decide⟩]
  rcases ht with ht | ht
  · simp [applyOther, ht, hfo]
  · simp [applyOther, ht, hfo]

theorem projection_error_nondebug (fuel : ℕ) (e today : Date) (s : SimState)
    (fl : List CashItem × List CashItem) (nd : Date)
    (htoday : s.events.takeWhile (fun ev => ev.date = today) = [])
    (hfl : futureLoop fuel s.debts
      { futBills := [], futIncomes := [], sims := initSims s.debts,
        pend := [], lastDate := today } s.events = some fl)
    (hnd : (projected_min_balance s.balance fl.1 fl.2).2 = some nd)
    (hle : Date.le nd e) :
    dayStep fuel false e today s = some (.error nd) := by
  rw [dayStep]
  rw [htoday]
  simp only [List.filter_nil, List.foldl_nil, List.length_nil, List.drop_zero]
  have hs : { s with events := s.events } = s := rfl
  rw [hs]
  rw [show applyOthers fuel false today s [] = some (.ok s) from rfl]
  simp only [Option.pure_def, Option.bind_eq_bind, Option.some_bind]
  rw [hfl]
  simp only [Option.some_bind]
  rw [hnd]
  dsimp only []
  rw [if_pos hle]
  rw [if_pos (by decide)]

theorem debtmin_error_nondebug (fuel : ℕ) (today : Date) (s : SimState)
    (ev : Event) (debt : Debt) (ht : ev.type = .debt_min)
    (hf : findDebt s.debts (ev.debt.getD ev.name) = some debt)
    (hpos : 0 < min ev.amount debt.balance)
    (hneg : s.balance - min ev.amount debt.balance < 0) :
    applyOther fuel false today s ev = some (.error ev.date) := by
  simp only [applyOther, ht, hf, Option.pure_def, Option.bind_eq_bind,
    Option.some_bind, if_neg (not_le.mpr hpos)]
  unfold finishOutflow
  rw [if_pos ⟨hneg, by decide⟩]

/-- C3 amended: with debug set the scheduler never raises; without debug an
applied bill or goal outflow that would drive the cash balance negative
raises an error carrying the event's date, an applied `debt_min` event whose
positive payment would drive the cash balance negative likewise raises an
error carrying the event's date, and a projection showing a shortfall dated
within the horizon raises an error carrying that date; the recorded
shortfall marker, once set, is preserved to the end of the run (set-once).
The unamended claim fails because income (paycheck) events can drive the
balance negative without any check. -/
theorem shortfall_error_amended :
    (∀ (fuel : ℕ) (start : Date) (bal : ℚ) (p : List PaycheckSpec)
       (b : List BillSpec) (di : List DebtInput) (g : List GoalSpec)
       (days : ℕ) (d : Date),
      daily_avalanche_schedule fuel start bal p b di g days true ≠
        some (.error d)) ∧
    (∀ (fuel : ℕ) (today : Date) (s : SimState) (ev : Event),
      ev.type = .bill ∨ ev.type = .goal → s.balance - ev.amount < 0 →
      applyOther fuel false today s ev = some (.error ev.date)) ∧
    (∀ (fuel : ℕ) (today : Date) (s : SimState) (ev : Event) (debt : Debt),
      ev.type = .debt_min →
      findDebt s.debts (ev.debt.getD ev.name) = some debt →
      0 < min ev.amount debt.balance →
      s.balance - min ev.amount debt.balance < 0 →
      applyOther fuel false today s ev = some (.error ev.date)) ∧
    (∀ (fuel : ℕ) (e today : Date) (s : SimState)
       (fl : List CashItem × List CashItem) (nd : Date),
      s.events.takeWhile (fun ev => ev.date = today) = [] →
      futureLoop fuel s.debts
        { futBills := [], futIncomes := [], sims := initSims s.debts,
          pend := [], lastDate := today } s.events = some fl →
      (projected_min_balance s.balance fl.1 fl.2).2 = some nd →
      Date.le nd e →
      dayStep fuel false e today s = some (.error nd)) ∧
    (∀ (fuel : ℕ) (debug : Bool) (e : Date) (n : ℕ) (today : Date)
       (s t : SimState) (d : Date),
      runLoop fuel debug e n today s = some (.ok t) → s.negHit = some d →
      t.negHit = some d) :=
  ⟨schedule_debug_no_error, outflow_error_nondebug, debtmin_error_nondebug,
   projection_error_nondebug, negPres_runLoop⟩

theorem shortfall_error_amended_witness :
    applyOther 5 false ⟨2025,1,1⟩
      { balance := 0, debts := [], events := [], sched := [], negHit := none }
      { date := ⟨2025,1,1⟩, type := .bill, amount := 10, name := "b",
        debt := none } = some (.error ⟨2025,1,1⟩) ∧
    applyOther 5 false ⟨2025,3,1⟩ w3s w3ev = some (.error ⟨2025,3,1⟩) ∧
    daily_avalanche_schedule 5 ⟨2025,1,1⟩ 0 [] [] [] [] 0 true ≠
      some (.error ⟨2025,1,1⟩) :=
  ⟨shortfall_error_amended.2.1 5 ⟨2025,1,1⟩
      { balance := 0, debts := [], events := [], sched := [], negHit := none }
      { date := ⟨2025,1,1⟩, type := .bill, amount := 10, name := "b",
        debt := none } (Or.inl rfl) (by decide),
   shortfall_error_amended.2.2.1 5 ⟨2025,3,1⟩ w3s w3ev w3debt rfl (by decide)
      (by decide) (by decide),
   shortfall_error_amended.1 5 ⟨2025,1,1⟩ 0 [] [] [] [] 0 ⟨2025,1,1⟩⟩

set_option maxRecDepth 200000 in
/-- C8 counterexample: a debt-linked bill with a negative amount is applied
as a negative `debt_add` charge, leaving the debt's balance at -40 on a
normally returning run. -/
theorem debt_invariant_counterexample :
    daily_avalanche_schedule 100 ⟨2025,1,1⟩ 0 [] [c8bill] [c8debt] [] 0 false =
      some (.ok (c8sched, c8res, none)) ∧
    ∃ r ∈ c8res, r.balance < 0 := by
  constructor
  · have hl0 : lookaheadEnd ⟨2025,1,1⟩ 0 = ⟨2026,1,1⟩ := (c6_looks).1
    rw [daily_avalanche_schedule, hl0]
    decide
  · decide

/-- Balance of a debt is unchanged by a new-charge interest hook. -/
theorem imAddCharge_balance (d : Debt) (amt : ℚ) (dt : Date) (d2 : Debt)
    (h : imAddCharge d amt dt = some d2) :
    d2.balance = d.balance ∧ d2.paid_off_date = d.paid_off_date := by
  unfold imAddCharge at h
  by_cases h1 : d.interest_method = "credit_card"
  · rw [if_pos h1] at h
    injection h with h
    subst h
    exact ⟨rfl, rfl⟩
  · rw [if_neg h1] at h
    by_cases h2 : d.interest_method = "apple_card"
    · rw [if_pos h2] at h
      injection h with h
      subst h
      unfold apple_card_add_charge
      by_cases h3 : d.balance_subject_to_interest = 0
      · rw [if_pos h3]
        exact ⟨rfl, rfl⟩
      · rw [if_neg h3]
        exact ⟨rfl, rfl⟩
    · rw [if_neg h2] at h
      exact absurd h (by simp)

theorem credit_card_daily_keeps (debt : Debt) (d : Date) :
    (credit_card_daily debt d).balance = debt.balance ∧
    (credit_card_daily debt d).paid_off_date = debt.paid_off_date := by
  unfold credit_card_daily
  by_cases h : 0 < debt.balance_subject_to_interest ∧ 0 < debt.apr
  · rw [if_pos h]
    exact ⟨rfl, rfl⟩
  · rw [if_neg h]
    exact ⟨rfl, rfl⟩

theorem imDaily_keeps (debt : Debt) (d : Date) (d2 : Debt)
    (h : imDaily debt d = some d2) :
    d2.balance = debt.balance ∧ d2.paid_off_date = debt.paid_off_date := by
  unfold imDaily at h
  by_cases h1 : debt.interest_method = "credit_card"
  · rw [if_pos h1] at h
    injection h with h
    subst h
    exact credit_card_daily_keeps debt d
  · rw [if_neg h1] at h
    by_cases h2 : debt.interest_method = "apple_card"
    · rw [if_pos h2] at h
      injection h with h
      subst h
      unfold apple_card_daily
      by_cases h3 : (credit_card_daily debt d).due_date = some d ∧
          (credit_card_daily debt d).grace_charges ≠ []
      · rw [if_pos h3]
        exact credit_card_daily_keeps debt d
      · rw [if_neg h3]
        exact credit_card_daily_keeps debt d
    · rw [if_neg h2] at h
      exact absurd h (by simp)

theorem imMonthEnd_keeps (debt : Debt) (d : Date) (r : Debt × ℚ)
    (h : imMonthEnd debt d = some r) :
    r.1.balance = debt.balance ∧ r.1.paid_off_date = debt.paid_off_date ∧
    0 ≤ r.2 := by
  have hcc : ∀ (q : Debt × ℚ), credit_card_month_end debt d = q →
      q.1.balance = debt.balance ∧ q.1.paid_off_date = debt.paid_off_date ∧
      0 ≤ q.2 := by
    intro q hq
    unfold credit_card_month_end at hq
    by_cases hb : 0 < debt.interest_buffer
    · rw [if_pos hb] at hq
      subst hq
      refine ⟨rfl, rfl, ?_⟩
      have := quantCents_mono (le_of_lt hb)
      rw [quantCents_zero] at this
      exact this
    · rw [if_neg hb] at hq
      subst hq
      exact ⟨rfl, rfl, le_refl 0⟩
  unfold imMonthEnd at h
  by_cases h1 : debt.interest_method = "credit_card"
  · rw [if_pos h1] at h
    injection h with h
    exact hcc r h
  · rw [if_neg h1] at h
    by_cases h2 : debt.interest_method = "apple_card"
    · rw [if_pos h2] at h
      injection h with h
      exact hcc r h
    · rw [if_neg h2] at h
      exact absurd h (by simp)

theorem recomputeAndPatch_keeps (fuel : ℕ) (debt : Debt) (cur : Date)
    (events : List Event) (pr : Debt × List Event)
    (h : recomputeAndPatch fuel debt cur events = some pr) :
    pr.1.balance = debt.balance ∧ pr.1.paid_off_date = debt.paid_off_date := by
  unfold recomputeAndPatch at h
  cases hm : compute_min_payment fuel debt cur with
  | none => rw [hm] at h; exact absurd h (by simp)
  | some nm =>
    rw [hm] at h
    simp only [Option.pure_def, Option.bind_eq_bind, Option.some_bind] at h
    cases hd : debt.due_date with
    | none =>
      rw [hd] at h
      dsimp only [] at h
      injection h with h
      subst h
      exact ⟨rfl, rfl⟩
    | some due =>
      rw [hd] at h
      dsimp only [] at h
      by_cases hnm : 0 < nm
      · rw [if_pos hnm] at h
        cases ha : advancePastDate fuel due cur with
        | none => rw [ha] at h; exact absurd h (by simp)
        | some nd =>
          rw [ha] at h
          simp only [Option.some_bind, Option.some.injEq] at h
          subst h
          exact ⟨rfl, rfl⟩
      · rw [if_neg hnm] at h
        injection h with h
        subst h
        exact ⟨rfl, rfl⟩

theorem patchMinEvents_types (events : List Event) (nd : Date) (nm : ℚ)
    (dn : String) (x : Event) (hx : x ∈ patchMinEvents events nd nm dn) :
    x ∈ events ∨ x.type = .debt_min := by
  induction events with
  | nil =>
    simp only [patchMinEvents, List.mem_singleton] at hx
    subst hx
    exact Or.inr rfl
  | cons ev rest ih =>
    rw [patchMinEvents] at hx
    by_cases h1 : ev.date = nd ∧ ev.type = .debt_min ∧ ev.debt.getD ev.name = dn
    · rw [if_pos h1] at hx
      rcases List.mem_cons.1 hx with hx | hx
      · subst hx
        exact Or.inr h1.2.1
      · exact Or.inl (List.mem_cons_of_mem ev hx)
    · rw [if_neg h1] at hx
      by_cases h2 : Date.lt nd ev.date
      · rw [if_pos h2] at hx
        rcases List.mem_cons.1 hx with hx | hx
        · subst hx
          exact Or.inr rfl
        · exact Or.inl hx
      · rw [if_neg h2] at hx
        rcases List.mem_cons.1 hx with hx | hx
        · subst hx
          exact Or.inl (List.mem_cons_self _ _)
        · rcases ih hx with hh | hh
          · exact Or.inl (List.mem_cons_of_mem ev hh)
          · exact Or.inr hh

theorem PdPres.refl (a : List Debt) : PdPres a a := ⟨rfl, fun _ _ h => h⟩

theorem PdPres.trans {a b c : List Debt} (h1 : PdPres a b) (h2 : PdPres b c) :
    PdPres a c := ⟨h1.1.trans h2.1, fun i p h => h2.2 i p (h1.2 i p h)⟩

theorem applyPaymentToDebt_balance (debt : Debt) (p : ℚ) :
    (applyPaymentToDebt debt p).balance = debt.balance - p ∧
    (applyPaymentToDebt debt p).paid_off_date = debt.paid_off_date ∧
    (applyPaymentToDebt debt p).name = debt.name := ⟨rfl, rfl, rfl⟩

theorem updateDebt_mem (debts : List Debt) (n : String) (d2 : Debt) (x : Debt)
    (hx : x ∈ updateDebt debts n d2) : x ∈ debts ∨ x = d2 := by
  induction debts with
  | nil => simp [updateDebt] at hx
  | cons d ds ih =>
    rw [updateDebt] at hx
    by_cases h1 : d.name = n
    · rw [if_pos h1] at hx
      rcases List.mem_cons.1 hx with hx | hx
      · exact Or.inr hx
      · exact Or.inl (List.mem_cons_of_mem d hx)
    · rw [if_neg h1] at hx
      rcases List.mem_cons.1 hx with hx | hx
      · subst hx
        exact Or.inl (List.mem_cons_self _ _)
      · rcases ih hx with hh | hh
        · exact Or.inl (List.mem_cons_of_mem d hh)
        · exact Or.inr hh

/-- `findDebt` finds the first name match; `updateDebt` replaces exactly that
position, so positional stamp preservation follows from stamp compatibility
of the found debt with its replacement. -/
theorem updateDebt_pdPres (debts : List Debt) (n : String) (found d2 : Debt)
    (hf : findDebt debts n = some found)
    (hc : ∀ p, found.paid_off_date = some p → d2.paid_off_date = some p) :
    PdPres debts (updateDebt debts n d2) := by
  induction debts with
  | nil => exact PdPres.refl []
  | cons d ds ih =>
    rw [updateDebt]
    unfold findDebt at hf
    rw [List.find?_cons] at hf
    by_cases h1 : d.name = n
    · rw [if_pos h1]
      have hd : found = d := by
        rw [decide_eq_true h1] at hf
        dsimp only [] at hf
        injection hf with hf
        exact hf.symm
      subst hd
      refine ⟨by simp, ?_⟩
      intro i p hp
      cases i with
      | zero =>
        simp only [List.get?_cons_zero, Option.map_some', Option.some.injEq] at hp ⊢
        exact hc p hp
      | succ j =>
        simpa using hp
    · rw [if_neg h1]
      rw [decide_eq_false h1] at hf
      dsimp only [] at hf
      have ihh := ih hf
      refine ⟨by simpa using ihh.1, ?_⟩
      intro i p hp
      cases i with
      | zero => simpa using hp
      | succ j =>
        simp only [List.get?_cons_succ] at hp ⊢
        exact ihh.2 j p hp

theorem recomputeAndPatch_events (fuel : ℕ) (debt : Debt) (cur : Date)
    (events : List Event) (pr : Debt × List Event)
    (h : recomputeAndPatch fuel debt cur events = some pr) :
    ∀ x ∈ pr.2, x ∈ events ∨ x.type = .debt_min := by
  unfold recomputeAndPatch at h
  cases hm : compute_min_payment fuel debt cur with
  | none => rw [hm] at h; exact absurd h (by simp)
  | some nm =>
    rw [hm] at h
    simp only [Option.pure_def, Option.bind_eq_bind, Option.some_bind] at h
    cases hd : debt.due_date with
    | none =>
      rw [hd] at h
      dsimp only [] at h
      injection h with h
      subst h
      exact fun x hx => Or.inl hx
    | some due =>
      rw [hd] at h
      dsimp only [] at h
      by_cases hnm : 0 < nm
      · rw [if_pos hnm] at h
        cases ha : advancePastDate fuel due cur with
        | none => rw [ha] at h; exact absurd h (by simp)
        | some ndd =>
          rw [ha] at h
          simp only [Option.some_bind, Option.some.injEq] at h
          subst h
          exact fun x hx => patchMinEvents_types events ndd nm debt.name x hx
      · rw [if_neg hnm] at h
        injection h with h
        subst h
        exact fun x hx => Or.inl hx

theorem findDebt_mem (debts : List Debt) (n : String) (d : Debt)
    (h : findDebt debts n = some d) : d ∈ debts :=
  List.mem_of_find?_eq_some h

theorem applyOther_debts (fuel : ℕ) (debug : Bool) (today : Date)
    (s : SimState) (ev : Event) (t : SimState)
    (h : applyOther fuel debug today s ev = some (.ok t))
    (hnn : DebtsNonneg s.debts)
    (hev : ev.type = .debt_add → 0 ≤ ev.amount)
    (hevents : EventsAddNonneg s.events) :
    DebtsNonneg t.debts ∧ PdPres s.debts t.debts ∧
    EventsAddNonneg t.events := by
  cases ht : ev.type with
  | debt_add =>
    cases hn : ev.debt with
    | none => simp [applyOther, ht, hn] at h
    | some n =>
      cases hf : findDebt s.debts n with
      | none => simp [applyOther, ht, hn, hf] at h
      | some debt =>
        cases hc : imAddCharge { debt with balance := debt.balance + ev.amount }
            ev.amount ev.date with
        | none => simp [applyOther, ht, hn, hf, hc] at h
        | some dc =>
          cases hr : recomputeAndPatch fuel dc today s.events with
          | none => simp [applyOther, ht, hn, hf, hc, hr] at h
          | some pr =>
            simp only [applyOther, ht, hn, hf, hc, hr, Option.pure_def,
              Option.bind_eq_bind, Option.some_bind, Option.some.injEq,
              Except.ok.injEq] at h
            subst h
            obtain ⟨hb1, hp1⟩ := imAddCharge_balance _ _ _ _ hc
            obtain ⟨hb2, hp2⟩ := recomputeAndPatch_keeps fuel dc today _ _ hr
            have hbal : pr.1.balance = debt.balance + ev.amount := by
              rw [hb2, hb1]
            have hnewnn : 0 ≤ pr.1.balance := by
              rw [hbal]
              have := hnn debt (findDebt_mem _ _ _ hf)
              have := hev ht
              linarith
            refine ⟨?_, ?_, ?_⟩
            · intro x hx
              rcases updateDebt_mem s.debts n pr.1 x hx with hh | hh
              · exact hnn x hh
              · rw [hh]
                exact hnewnn
            · refine updateDebt_pdPres s.debts n debt pr.1 hf ?_
              intro p hp
              rw [hp2, hp1]
              exact hp
            · intro x hx hxt
              rcases recomputeAndPatch_events fuel dc today _ _ hr x hx with hh | hh
              · exact hevents x hh hxt
              · rw [hxt] at hh
                exact absurd hh (by simp)
  | debt_min =>
    cases hf : findDebt s.debts (ev.debt.getD ev.name) with
    | none => simp [applyOther, ht, hf] at h
    | some debt =>
      by_cases hp : min ev.amount debt.balance ≤ 0
      · simp only [applyOther, ht, hf, Option.pure_def, Option.bind_eq_bind,
          Option.some_bind, if_pos hp, Option.some.injEq, Except.ok.injEq] at h
        subst h
        exact ⟨hnn, PdPres.refl _, hevents⟩
      · simp only [applyOther, ht, hf, Option.pure_def, Option.bind_eq_bind,
          Option.some_bind, if_neg hp, Option.some.injEq] at h
        unfold finishOutflow at h
        by_cases hcnd : s.balance - min ev.amount debt.balance < 0 ∧ ¬ debug
        · rw [if_pos hcnd] at h
          exact absurd h (by simp)
        · rw [if_neg hcnd] at h
          injection h with h
          subst h
          have hble : min ev.amount debt.balance ≤ debt.balance :=
            min_le_right _ _
          have hbal0 : 0 ≤ (applyPaymentToDebt debt
              (min ev.amount debt.balance)).balance := by
            rw [(applyPaymentToDebt_balance debt _).1]
            linarith
          refine ⟨?_, ?_, hevents⟩
          · intro x hx
            rcases updateDebt_mem s.debts _ _ x hx with hh | hh
            · exact hnn x hh
            · rw [hh]
              by_cases hst : (applyPaymentToDebt debt
                    (min ev.amount debt.balance)).balance ≤ 0 ∧
                  (applyPaymentToDebt debt
                    (min ev.amount debt.balance)).paid_off_date = none
              · rw [if_pos hst]
                exact hbal0
              · rw [if_neg hst]
                exact hbal0
          · refine updateDebt_pdPres s.debts _ debt _ hf ?_
            intro p hpd
            have hpd2 : (applyPaymentToDebt debt
                (min ev.amount debt.balance)).paid_off_date = some p := by
              rw [(applyPaymentToDebt_balance debt _).2.1]
              exact hpd
            by_cases hst : (applyPaymentToDebt debt
                  (min ev.amount debt.balance)).balance ≤ 0 ∧
                (applyPaymentToDebt debt
                  (min ev.amount debt.balance)).paid_off_date = none
            · exact absurd hst.2 (by rw [hpd2]; simp)
            · rw [if_neg hst]
              exact hpd2
  | paycheck =>
    simp only [applyOther, ht, Option.pure_def, Option.some.injEq] at h
    unfold finishOutflow at h
    by_cases hcnd : s.balance - ev.amount < 0 ∧ ¬ debug
    · rw [if_pos hcnd] at h
      exact absurd h (by simp)
    · rw [if_neg hcnd] at h
      injection h with h
      subst h
      exact ⟨hnn, PdPres.refl _, hevents⟩
  | bill =>
    simp only [applyOther, ht, Option.pure_def, Option.some.injEq] at h
    unfold finishOutflow at h
    by_cases hcnd : s.balance - ev.amount < 0 ∧ ¬ debug
    · rw [if_pos hcnd] at h
      exact absurd h (by simp)
    · rw [if_neg hcnd] at h
      injection h with h
      subst h
      exact ⟨hnn, PdPres.refl _, hevents⟩
  | goal =>
    simp only [applyOther, ht, Option.pure_def, Option.some.injEq] at h
    unfold finishOutflow at h
    by_cases hcnd : s.balance - ev.amount < 0 ∧ ¬ debug
    · rw [if_pos hcnd] at h
      exact absurd h (by simp)
    · rw [if_neg hcnd] at h
      injection h with h
      subst h
      exact ⟨hnn, PdPres.refl _, hevents⟩
  | extra =>
    simp only [applyOther, ht, Option.pure_def, Option.some.injEq] at h
    unfold finishOutflow at h
    by_cases hcnd : s.balance - ev.amount < 0 ∧ ¬ debug
    · rw [if_pos hcnd] at h
      exact absurd h (by simp)
    · rw [if_neg hcnd] at h
      injection h with h
      subst h
      exact ⟨hnn, PdPres.refl _, hevents⟩

theorem applyOthers_debts (fuel : ℕ) (debug : Bool) (today : Date)
    (l : List Event) (s : SimState) (t : SimState)
    (h : applyOthers fuel debug today s l = some (.ok t))
    (hnn : DebtsNonneg s.debts)
    (hl : ∀ ev ∈ l, ev.type = .debt_add → 0 ≤ ev.amount)
    (hevents : EventsAddNonneg s.events) :
    DebtsNonneg t.debts ∧ PdPres s.debts t.debts ∧
    EventsAddNonneg t.events := by
  induction l generalizing s with
  | nil =>
    simp only [applyOthers, Option.some.injEq, Except.ok.injEq] at h
    subst h
    exact ⟨hnn, PdPres.refl _, hevents⟩
  | cons ev rest ih =>
    rw [applyOthers] at h
    cases h1 : applyOther fuel debug today s ev with
    | none => rw [h1] at h; exact absurd h (by simp)
    | some r =>
      rw [h1] at h
      cases r with
      | error d =>
        simp only [Option.pure_def, Option.bind_eq_bind, Option.some_bind] at h
        exact absurd h (by simp)
      | ok s2 =>
        simp only [Option.pure_def, Option.bind_eq_bind, Option.some_bind] at h
        obtain ⟨h2nn, h2pd, h2ev⟩ := applyOther_debts fuel debug today s ev s2
          h1 hnn (hl ev (List.mem_cons_self _ _)) hevents
        obtain ⟨h3nn, h3pd, h3ev⟩ := ih s2 h h2nn
          (fun e he => hl e (List.mem_cons_of_mem ev he)) h2ev
        exact ⟨h3nn, h2pd.trans h3pd, h3ev⟩

theorem set_pdPres (debts : List Debt) (j : ℕ) (target t3 : Debt)
    (hg : debts.get? j = some target)
    (hc : ∀ p, target.paid_off_date = some p → t3.paid_off_date = some p) :
    PdPres debts (debts.set j t3) := by
  refine ⟨by simp, ?_⟩
  intro i p hp
  by_cases hij : i = j
  · subst hij
    rw [hg] at hp
    simp only [Option.map_some', Option.some.injEq] at hp
    have hlt : i < debts.length := by
      rcases List.get?_eq_some.1 hg with ⟨hh, _⟩
      exact hh
    rw [List.get?_set_eq_of_lt _ hlt]
    simp only [Option.map_some', Option.some.injEq]
    exact hc p hp
  · rw [List.get?_set_ne _ _ (fun hh => hij hh.symm)]
    exact hp

theorem extraStep_debts (today : Date) (safe : ℚ) (s : SimState)
    (hnn : DebtsNonneg s.debts) :
    DebtsNonneg (extraStep today safe s).debts ∧
    PdPres s.debts (extraStep today safe s).debts := by
  unfold extraStep
  by_cases h0 : 0 < safe
  · rw [if_pos h0]
    cases hj : selectTargetIdx s.debts with
    | none =>
      simp only [hj]
      exact ⟨hnn, PdPres.refl _⟩
    | some j =>
      simp only [hj]
      cases hg : s.debts.get? j with
      | none =>
        simp only [hg]
        exact ⟨hnn, PdPres.refl _⟩
      | some target =>
        simp only [hg]
        by_cases hp : 0 < min safe target.balance
        · rw [if_pos hp]
          have htb : 0 ≤ (applyPaymentToDebt target
              (min safe target.balance)).balance := by
            rw [(applyPaymentToDebt_balance target _).1]
            have := min_le_right safe target.balance
            linarith
          constructor
          · intro x hx
            rcases List.mem_or_eq_of_mem_set hx with hh | hh
            · exact hnn x hh
            · rw [hh]
              by_cases hst : (applyPaymentToDebt target
                    (min safe target.balance)).balance ≤ 0 ∧
                  (applyPaymentToDebt target
                    (min safe target.balance)).paid_off_date = none
              · rw [if_pos hst]
                exact htb
              · rw [if_neg hst]
                exact htb
          · refine set_pdPres s.debts j target _ hg ?_
            intro p hpd
            have hpd2 : (applyPaymentToDebt target
                (min safe target.balance)).paid_off_date = some p := by
              rw [(applyPaymentToDebt_balance target _).2.1]
              exact hpd
            by_cases hst : (applyPaymentToDebt target
                  (min safe target.balance)).balance ≤ 0 ∧
                (applyPaymentToDebt target
                  (min safe target.balance)).paid_off_date = none
            · exact absurd hst.2 (by rw [hpd2]; simp)
            · rw [if_neg hst]
              exact hpd2
        · rw [if_neg hp]
          exact ⟨hnn, PdPres.refl _⟩
  · rw [if_neg h0]
    exact ⟨hnn, PdPres.refl _⟩

theorem accrueAll_debts (today : Date) (l : List Debt) (l2 : List Debt)
    (h : accrueAll today l = some l2) (hnn : DebtsNonneg l) :
    DebtsNonneg l2 ∧ PdPres l l2 := by
  induction l generalizing l2 with
  | nil =>
    simp only [accrueAll, Option.some.injEq] at h
    subst h
    exact ⟨hnn, PdPres.refl _⟩
  | cons d ds ih =>
    rw [accrueAll] at h
    cases h1 : imDaily d today with
    | none => rw [h1] at h; exact absurd h (by simp)
    | some d2 =>
      rw [h1] at h
      simp only [Option.pure_def, Option.bind_eq_bind, Option.some_bind] at h
      cases h2 : accrueAll today ds with
      | none => rw [h2] at h; exact absurd h (by simp)
      | some rest =>
        rw [h2] at h
        simp only [Option.some_bind, Option.some.injEq] at h
        subst h
        obtain ⟨hb, hpd⟩ := imDaily_keeps d today d2 h1
        obtain ⟨hnn2, hpd2⟩ := ih rest h2
          (fun x hx => hnn x (List.mem_cons_of_mem d hx))
        refine ⟨?_, ?_, ?_⟩
        · intro x hx
          rcases List.mem_cons.1 hx with hx | hx
          · rw [hx, hb]
            exact hnn d (List.mem_cons_self _ _)
          · exact hnn2 x hx
        · simpa using hpd2.1
        · intro i p hp
          cases i with
          | zero =>
            simp only [List.get?_cons_zero, Option.map_some',
              Option.some.injEq] at hp ⊢
            rw [hpd]
            exact hp
          | succ k =>
            simp only [List.get?_cons_succ] at hp ⊢
            exact hpd2.2 k p hp

theorem monthEndGo_debts (fuel : ℕ) (today : Date) (cash : ℚ)
    (ds : List Debt) (events : List Event) (entries : List ScheduleEntry)
    (r : List Debt × List Event × List ScheduleEntry)
    (h : monthEndGo fuel today cash ds events entries = some r)
    (hnn : DebtsNonneg ds) (hevents : EventsAddNonneg events) :
    DebtsNonneg r.1 ∧ PdPres ds r.1 ∧ EventsAddNonneg r.2.1 := by
  induction ds generalizing events entries r with
  | nil =>
    simp only [monthEndGo, Option.some.injEq] at h
    subst h
    exact ⟨hnn, PdPres.refl _, hevents⟩
  | cons debt rest ih =>
    rw [monthEndGo] at h
    cases hm : imMonthEnd debt today with
    | none => rw [hm] at h; exact absurd h (by simp)
    | some rb =>
      rw [hm] at h
      simp only [Option.pure_def, Option.bind_eq_bind, Option.some_bind] at h
      obtain ⟨hb, hpd, hbilnn⟩ := imMonthEnd_keeps debt today rb hm
      by_cases hbil : 0 < rb.2
      · rw [if_pos hbil] at h
        cases hr : recomputeAndPatch fuel
            { rb.1 with
              balance := rb.1.balance + rb.2,
              interest_charges := rb.1.interest_charges + rb.2,
              min_payment_args :=
                { rb.1.min_payment_args with interest_billed := some rb.2 } }
            today events with
        | none => rw [hr] at h; exact absurd h (by simp)
        | some pr =>
          rw [hr] at h
          simp only [Option.some_bind] at h
          cases hrest : monthEndGo fuel today cash rest pr.2
              (entries ++ [{ date := today, type := EType.debt_add,
                             description := debt.name ++ " interest",
                             amount := rb.2, balance := cash }]) with
          | none => rw [hrest] at h; exact absurd h (by simp)
          | some r2 =>
            rw [hrest] at h
            simp only [Option.some_bind, Option.some.injEq] at h
            subst h
            obtain ⟨hb2, hpd2⟩ := recomputeAndPatch_keeps fuel _ today _ _ hr
            have hprev : EventsAddNonneg pr.2 := by
              intro x hx hxt
              rcases recomputeAndPatch_events fuel _ today _ _ hr x hx with hh | hh
              · exact hevents x hh hxt
              · rw [hxt] at hh
                exact absurd hh (by simp)
            obtain ⟨hnn2, hpd3, hev3⟩ := ih pr.2 _ r2 hrest
              (fun x hx => hnn x (List.mem_cons_of_mem debt hx)) hprev
            refine ⟨?_, ?_, ?_⟩
            · intro x hx
              rcases List.mem_cons.1 hx with hx | hx
              · rw [hx, hb2]
                show (0:ℚ) ≤ rb.1.balance + rb.2
                rw [hb]
                have := hnn debt (List.mem_cons_self _ _)
                linarith
              · exact hnn2 x hx
            · refine ⟨by simpa using hpd3.1, ?_⟩
              intro i p hp
              cases i with
              | zero =>
                simp only [List.get?_cons_zero, Option.map_some',
                  Option.some.injEq] at hp ⊢
                rw [hpd2]
                show ({ rb.1 with
                  balance := rb.1.balance + rb.2,
                  interest_charges := rb.1.interest_charges + rb.2,
                  min_payment_args :=
                    { rb.1.min_payment_args with
                      interest_billed := some rb.2 } } :
                  Debt).paid_off_date = some p
                show rb.1.paid_off_date = some p
                rw [hpd]
                exact hp
              | succ k =>
                simp only [List.get?_cons_succ] at hp ⊢
                exact hpd3.2 k p hp
            · exact hev3
      · rw [if_neg hbil] at h
        cases hrest : monthEndGo fuel today cash rest events entries with
        | none => rw [hrest] at h; exact absurd h (by simp)
        | some r2 =>
          rw [hrest] at h
          simp only [Option.some_bind, Option.some.injEq] at h
          subst h
          obtain ⟨hnn2, hpd3, hev3⟩ := ih events entries r2 hrest
            (fun x hx => hnn x (List.mem_cons_of_mem debt hx)) hevents
          refine ⟨?_, ?_, ?_⟩
          · intro x hx
            rcases List.mem_cons.1 hx with hx | hx
            · rw [hx, hb]
              exact hnn debt (List.mem_cons_self _ _)
            · exact hnn2 x hx
          · refine ⟨by simpa using hpd3.1, ?_⟩
            intro i p hp
            cases i with
            | zero =>
              simp only [List.get?_cons_zero, Option.map_some',
                Option.some.injEq] at hp ⊢
              rw [hpd]
              exact hp
            | succ k =>
              simp only [List.get?_cons_succ] at hp ⊢
              exact hpd3.2 k p hp
          · exact hev3

theorem monthEndStep_debts (fuel : ℕ) (today : Date) (s t : SimState)
    (h : monthEndStep fuel today s = some t)
    (hnn : DebtsNonneg s.debts) (hevents : EventsAddNonneg s.events) :
    DebtsNonneg t.debts ∧ PdPres s.debts t.debts ∧
    EventsAddNonneg t.events := by
  unfold monthEndStep at h
  by_cases hb : (Date.succ today).month ≠ today.month
  · rw [if_pos hb] at h
    cases hr : monthEndGo fuel today s.balance s.debts s.events s.sched with
    | none => rw [hr] at h; exact absurd h (by simp)
    | some r =>
      rw [hr] at h
      simp only [Option.pure_def, Option.bind_eq_bind, Option.some_bind,
        Option.some.injEq] at h
      subst h
      exact monthEndGo_debts fuel today s.balance s.debts s.events s.sched r
        hr hnn hevents
  · rw [if_neg hb] at h
    injection h with h
    subst h
    exact ⟨hnn, PdPres.refl _, hevents⟩

theorem foldl_applyPaycheck_keeps (l : List Event) (s : SimState) :
    (l.foldl applyPaycheck s).debts = s.debts ∧
    (l.foldl applyPaycheck s).events = s.events := by
  induction l generalizing s with
  | nil => exact ⟨rfl, rfl⟩
  | cons ev rest ih =>
    rw [List.foldl_cons]
    exact ih (applyPaycheck s ev)

theorem dayStep_debts (fuel : ℕ) (debug : Bool) (e today : Date)
    (s t : SimState) (h : dayStep fuel debug e today s = some (.ok t))
    (hnn : DebtsNonneg s.debts) (hevents : EventsAddNonneg s.events) :
    DebtsNonneg t.debts ∧ PdPres s.debts t.debts ∧
    EventsAddNonneg t.events := by
  have hrest : EventsAddNonneg (s.events.drop
      (s.events.takeWhile (fun ev => ev.date = today)).length) := by
    intro x hx hxt
    exact hevents x (List.mem_of_mem_drop hx) hxt
  have hothers : ∀ ev ∈ (s.events.takeWhile
      (fun ev => ev.date = today)).filter (fun ev => ¬ ev.type = .paycheck),
      ev.type = .debt_add → 0 ≤ ev.amount := by
    intro ev hev hevt
    exact hevents ev (List.Sublist.mem (List.mem_filter.1 hev).1
      (List.takeWhile_sublist _)) hevt
  rw [dayStep] at h
  simp only [Option.pure_def, Option.bind_eq_bind, Option.bind_eq_some] at h
  obtain ⟨r, h1, h2⟩ := h
  cases r with
  | error d => exact absurd h2 (by simp)
  | ok s2 =>
    have hfold := foldl_applyPaycheck_keeps
      ((s.events.takeWhile (fun ev => ev.date = today)).filter
        (fun ev => ev.type = .paycheck))
      { s with
        events :=
          s.events.drop
            (s.events.takeWhile (fun ev => ev.date = today)).length }
    obtain ⟨h2nn, h2pd, h2ev⟩ := applyOthers_debts fuel debug today _ _ s2 h1
      (by rw [hfold.1]; exact hnn) hothers (by rw [hfold.2]; exact hrest)
    simp only [Option.bind_eq_some] at h2
    obtain ⟨fl, h3, h4⟩ := h2
    have finish : ∀ (u : SimState), u.debts = s2.debts → u.events = s2.events →
        (((accrueAll today (extraStep today
            (max 0 (projected_min_balance s2.balance fl.1 fl.2).1) u).debts).bind
          fun debts =>
            (monthEndStep fuel today
              { extraStep today
                  (max 0 (projected_min_balance s2.balance fl.1 fl.2).1) u with
                debts := debts }).bind
              fun s4 => some (Except.ok s4) :
            Option (Except Date SimState)) = some (Except.ok t)) →
        DebtsNonneg t.debts ∧ PdPres s.debts t.debts ∧
        EventsAddNonneg t.events := by
      intro u hud hue hrun
      simp only [Option.bind_eq_some, Option.some.injEq] at hrun
      obtain ⟨debts2, h5, h6⟩ := hrun
      obtain ⟨s3, h7, h8⟩ := h6
      injection h8 with h8
      subst h8
      obtain ⟨hxnn, hxpd⟩ := extraStep_debts today
        (max 0 (projected_min_balance s2.balance fl.1 fl.2).1) u
        (by rw [hud]; exact h2nn)
      obtain ⟨hann, hapd⟩ := accrueAll_debts today _ debts2 h5 hxnn
      have hexev : (extraStep today
          (max 0 (projected_min_balance s2.balance fl.1 fl.2).1) u).events =
          u.events := by
        unfold extraStep
        by_cases h0 : 0 < max 0 (projected_min_balance s2.balance fl.1 fl.2).1
        · rw [if_pos h0]
          cases hj : selectTargetIdx u.debts with
          | none => simp only [hj]
          | some j =>
            simp only [hj]
            cases hg : u.debts.get? j with
            | none => simp only [hg]
            | some target =>
              simp only [hg]
              by_cases hp : 0 < min (max 0
                  (projected_min_balance s2.balance fl.1 fl.2).1) target.balance
              · rw [if_pos hp]
              · rw [if_neg hp]
        · rw [if_neg h0]
      obtain ⟨hmnn, hmpd, hmev⟩ := monthEndStep_debts fuel today _ s3 h7
        hann (by show EventsAddNonneg (extraStep _ _ u).events
                 rw [hexev, hue]
                 exact h2ev)
      refine ⟨hmnn, ?_, hmev⟩
      have hsd : PdPres s.debts u.debts := by
        rw [hud]
        rw [hfold.1] at h2pd
        exact h2pd
      exact ((hsd.trans hxpd).trans hapd).trans hmpd
    rcases hch : (projected_min_balance s2.balance fl.1 fl.2).2 with _ | nd
    · rw [hch] at h4
      dsimp only [] at h4
      exact finish s2 rfl rfl h4
    · rw [hch] at h4
      dsimp only [] at h4
      by_cases hle : Date.le nd e
      · rw [if_pos hle] at h4
        by_cases hdbg : ¬ debug
        · rw [if_pos hdbg] at h4
          exact absurd h4 (by simp)
        · rw [if_neg hdbg] at h4
          dsimp only [] at h4
          exact finish { s2 with
            negHit := if s2.negHit = none then some nd else s2.negHit }
            rfl rfl h4
      · rw [if_neg hle] at h4
        dsimp only [] at h4
        exact finish s2 rfl rfl h4

theorem runLoop_debts (fuel : ℕ) (debug : Bool) (e : Date) (n : ℕ)
    (today : Date) (s t : SimState)
    (h : runLoop fuel debug e n today s = some (.ok t))
    (hnn : DebtsNonneg s.debts) (hevents : EventsAddNonneg s.events) :
    DebtsNonneg t.debts ∧ PdPres s.debts t.debts := by
  induction n generalizing today s with
  | zero =>
    simp only [runLoop, Option.some.injEq, Except.ok.injEq] at h
    subst h
    exact ⟨hnn, PdPres.refl _⟩
  | succ m ih =>
    rw [runLoop] at h
    simp only [Option.pure_def, Option.bind_eq_bind, Option.bind_eq_some] at h
    obtain ⟨r, h1, h2⟩ := h
    cases r with
    | error d => exact absurd h2 (by simp)
    | ok s2 =>
      obtain ⟨h2nn, h2pd, h2ev⟩ := dayStep_debts fuel debug e today s s2 h1
        hnn hevents
      obtain ⟨h3nn, h3pd⟩ := ih (Date.succ today) s2 h2 h2nn h2ev
      exact ⟨h3nn, h2pd.trans h3pd⟩

theorem debt_min_noop (fuel : ℕ) (debug : Bool) (today : Date) (s : SimState)
    (ev : Event) (debt : Debt) (ht : ev.type = .debt_min)
    (hf : findDebt s.debts (ev.debt.getD ev.name) = some debt)
    (hb : debt.balance ≤ 0) :
    applyOther fuel debug today s ev = some (.ok s) := by
  have hp : min ev.amount debt.balance ≤ 0 :=
    le_trans (min_le_right _ _) hb
  simp only [applyOther, ht, hf, Option.pure_def, Option.bind_eq_bind,
    Option.some_bind, if_pos hp]

theorem debtmin_stamps (fuel : ℕ) (debug : Bool) (today : Date) (s : SimState)
    (ev : Event) (debt : Debt) (t : SimState) (ht : ev.type = .debt_min)
    (hf : findDebt s.debts (ev.debt.getD ev.name) = some debt)
    (hpos : 0 < min ev.amount debt.balance)
    (hz : (applyPaymentToDebt debt (min ev.amount debt.balance)).balance ≤ 0)
    (hnone : debt.paid_off_date = none)
    (h : applyOther fuel debug today s ev = some (.ok t)) :
    t.debts = updateDebt s.debts (ev.debt.getD ev.name)
      { applyPaymentToDebt debt (min ev.amount debt.balance) with
        paid_off_date := some ev.date } := by
  simp only [applyOther, ht, hf, Option.pure_def, Option.bind_eq_bind,
    Option.some_bind, if_neg (not_le.mpr hpos)] at h
  rw [if_pos ⟨hz, by
    rw [(applyPaymentToDebt_balance debt (min ev.amount debt.balance)).2.1]
    exact hnone⟩] at h
  unfold finishOutflow at h
  by_cases hcnd : s.balance - min ev.amount debt.balance < 0 ∧ ¬ debug
  · rw [if_pos hcnd] at h
    exact absurd h (by simp)
  · rw [if_neg hcnd] at h
    injection h with h
    injection h with h
    subst h
    rfl

theorem extra_stamps (today : Date) (safe : ℚ) (s : SimState) (j : ℕ)
    (target : Debt) (h0 : 0 < safe) (hj : selectTargetIdx s.debts = some j)
    (hg : s.debts.get? j = some target)
    (hp : 0 < min safe target.balance)
    (hz : (applyPaymentToDebt target (min safe target.balance)).balance ≤ 0)
    (hnone : target.paid_off_date = none) :
    (extraStep today safe s).debts = s.debts.set j
      { applyPaymentToDebt target (min safe target.balance) with
        paid_off_date := some today } := by
  unfold extraStep
  rw [if_pos h0]
  simp only [hj, hg]
  rw [if_pos hp]
  rw [if_pos ⟨hz, by
    rw [(applyPaymentToDebt_balance target (min safe target.balance)).2.1]
    exact hnone⟩]

/-- C8 amended: over a whole simulation run, if every debt starts with a
nonnegative balance and every `debt_add` event carries a nonnegative amount,
all debt balances stay nonnegative, and a paid-off stamp already set at a
list position survives the run unchanged (set-once, reopening included);
when a `debt_min` payment or an extra avalanche payment brings a previously
unstamped debt's balance to zero or below, `paid_off_date` is stamped with
that event's date (respectively the current day); and a `debt_minimum`
event for a debt with nonpositive balance is a strict no-op (no cash
outflow, no schedule entry, no state change).  The unamended claim fails
because a negative `debt_add` amount drives a balance below zero. -/
theorem debt_lifecycle_amended :
    (∀ (fuel : ℕ) (debug : Bool) (e : Date) (n : ℕ) (today : Date)
       (s t : SimState),
      runLoop fuel debug e n today s = some (.ok t) →
      DebtsNonneg s.debts → EventsAddNonneg s.events →
      DebtsNonneg t.debts ∧ PdPres s.debts t.debts) ∧
    (∀ (fuel : ℕ) (debug : Bool) (today : Date) (s : SimState) (ev : Event)
       (debt : Debt) (t : SimState), ev.type = .debt_min →
      findDebt s.debts (ev.debt.getD ev.name) = some debt →
      0 < min ev.amount debt.balance →
      (applyPaymentToDebt debt (min ev.amount debt.balance)).balance ≤ 0 →
      debt.paid_off_date = none →
      applyOther fuel debug today s ev = some (.ok t) →
      t.debts = updateDebt s.debts (ev.debt.getD ev.name)
        { applyPaymentToDebt debt (min ev.amount debt.balance) with
          paid_off_date := some ev.date }) ∧
    (∀ (today : Date) (safe : ℚ) (s : SimState) (j : ℕ) (target : Debt),
      0 < safe → selectTargetIdx s.debts = some j →
      s.debts.get? j = some target → 0 < min safe target.balance →
      (applyPaymentToDebt target (min safe target.balance)).balance ≤ 0 →
      target.paid_off_date = none →
      (extraStep today safe s).debts = s.debts.set j
        { applyPaymentToDebt target (min safe target.balance) with
          paid_off_date := some today }) ∧
    (∀ (fuel : ℕ) (debug : Bool) (today : Date) (s : SimState) (ev : Event)
       (debt : Debt), ev.type = .debt_min →
      findDebt s.debts (ev.debt.getD ev.name) = some debt →
      debt.balance ≤ 0 →
      applyOther fuel debug today s ev = some (.ok s)) :=
  ⟨fun fuel debug e n today s t h hnn hev =>
    runLoop_debts fuel debug e n today s t h hnn hev,
   fun fuel debug today s ev debt t ht hf hpos hz hnone h =>
    debtmin_stamps fuel debug today s ev debt t ht hf hpos hz hnone h,
   extra_stamps, debt_min_noop⟩

theorem debt_lifecycle_amended_witness :
    (DebtsNonneg w8s.debts ∧ PdPres w8s.debts w8s.debts) ∧
    (extraStep ⟨2025,4,1⟩ 40
        { balance := 50, debts := [w8target], events := [], sched := [],
          negHit := none }).debts =
      [w8target].set 0
        { applyPaymentToDebt w8target (min 40 w8target.balance) with
          paid_off_date := some ⟨2025,4,1⟩ } ∧
    applyOther 5 false ⟨2025,2,1⟩ w8s w8ev = some (.ok w8s) :=
  ⟨debt_lifecycle_amended.1 5 false ⟨2025,1,1⟩ 0 ⟨2025,1,1⟩ w8s w8s rfl
      (by intro d hd
          simp only [w8s, List.mem_singleton] at hd
          rw [hd]
          decide)
      (by intro ev hev
          simp [w8s] at hev),
   debt_lifecycle_amended.2.2.1 ⟨2025,4,1⟩ 40
      { balance := 50, debts := [w8target], events := [], sched := [],
        negHit := none } 0 w8target (by decide) (by decide) (by decide)
      (by decide) (by decide) (by decide),
   debt_lifecycle_amended.2.2.2 5 false ⟨2025,2,1⟩ w8s w8ev w8debt rfl
      (by decide) (by decide)⟩

theorem selectTargetGo_spec (l : List Debt) (i0 : ℕ) (best : Option (ℕ × ℚ))
    (j : ℕ) (a : ℚ) (h : selectTargetGo l i0 best = some (j, a)) :
    (best = some (j, a) ∧
      ∀ k t, l.get? k = some t → 0 < t.balance → t.apr ≤ a) ∨
    (∃ k t, l.get? k = some t ∧ 0 < t.balance ∧ j = i0 + k ∧ a = t.apr ∧
      (∀ bi ba, best = some (bi, ba) → ba < a) ∧
      (∀ k2 t2, k2 < k → l.get? k2 = some t2 → 0 < t2.balance → t2.apr < a) ∧
      (∀ k2 t2, l.get? k2 = some t2 → 0 < t2.balance → t2.apr ≤ a)) := by
  induction l generalizing i0 best with
  | nil =>
    rw [selectTargetGo.eq_def] at h
    exact Or.inl ⟨h, by intro k t hk; simp at hk⟩
  | cons d ds ih =>
    rw [selectTargetGo.eq_def] at h
    dsimp only [] at h
    by_cases hd : 0 < d.balance
    · rw [if_pos hd] at h
      cases hbest : best with
      | none =>
        rw [hbest] at h
        rcases ih (i0 + 1) (some (i0, d.apr)) h with ⟨h1, h2⟩ | h2
        · -- accumulator (i0, d.apr) won the rest
          injection h1 with h1
          injection h1 with h1a h1b
          refine Or.inr ⟨0, d, rfl, hd, by omega, h1b.symm, ?_, ?_, ?_⟩
          · intro bi ba hb
            exact absurd hb (by simp)
          · intro k2 t2 hk2
            omega
          · intro k2 t2 hk2 hp
            cases k2 with
            | zero =>
              injection hk2 with hk2
              rw [← hk2, ← h1b]
            | succ k3 =>
              exact h2 k3 t2 hk2 hp
        · obtain ⟨k, t, hget, hpos, hj, ha, hbeat, hearly, hdom⟩ := h2
          refine Or.inr ⟨k + 1, t, hget, hpos, by omega, ha, ?_, ?_, ?_⟩
          · intro bi ba hb
            exact absurd hb (by simp)
          · intro k2 t2 hk2lt hk2 hp
            cases k2 with
            | zero =>
              injection hk2 with hk2
              rw [← hk2]
              exact hbeat i0 d.apr rfl
            | succ k3 =>
              exact hearly k3 t2 (by omega) hk2 hp
          · intro k2 t2 hk2 hp
            cases k2 with
            | zero =>
              injection hk2 with hk2
              rw [← hk2]
              exact le_of_lt (hbeat i0 d.apr rfl)
            | succ k3 =>
              exact hdom k3 t2 hk2 hp
      | some p =>
        obtain ⟨bi, ba⟩ := p
        rw [hbest] at h
        dsimp only [] at h
        by_cases hlt : ba < d.apr
        · rw [if_pos hlt] at h
          rcases ih (i0 + 1) (some (i0, d.apr)) h with ⟨h1, h2⟩ | h2
          · injection h1 with h1
            injection h1 with h1a h1b
            refine Or.inr ⟨0, d, rfl, hd, by omega, h1b.symm, ?_, ?_, ?_⟩
            · intro bi2 ba2 hb
              injection hb with hb
              injection hb with hb1 hb2
              rw [← hb2, ← h1b]
              exact hlt
            · intro k2 t2 hk2
              omega
            · intro k2 t2 hk2 hp
              cases k2 with
              | zero =>
                injection hk2 with hk2
                rw [← hk2, ← h1b]
              | succ k3 =>
                exact h2 k3 t2 hk2 hp
          · obtain ⟨k, t, hget, hpos, hj, ha, hbeat, hearly, hdom⟩ := h2
            have hda : d.apr < a := hbeat i0 d.apr rfl
            refine Or.inr ⟨k + 1, t, hget, hpos, by omega, ha, ?_, ?_, ?_⟩
            · intro bi2 ba2 hb
              injection hb with hb
              injection hb with hb1 hb2
              rw [← hb2]
              exact lt_trans hlt hda
            · intro k2 t2 hk2lt hk2 hp
              cases k2 with
              | zero =>
                injection hk2 with hk2
                rw [← hk2]
                exact hda
              | succ k3 =>
                exact hearly k3 t2 (by omega) hk2 hp
            · intro k2 t2 hk2 hp
              cases k2 with
              | zero =>
                injection hk2 with hk2
                rw [← hk2]
                exact le_of_lt hda
              | succ k3 =>
                exact hdom k3 t2 hk2 hp
        · rw [if_neg hlt] at h
          rcases ih (i0 + 1) (some (bi, ba)) h with ⟨h1, h2⟩ | h2
          · injection h1 with h1
            injection h1 with h1a h1b
            refine Or.inl ⟨by rw [h1a, h1b], ?_⟩
            intro k t hk hp
            cases k with
            | zero =>
              injection hk with hk
              rw [← hk, ← h1b]
              exact le_of_not_lt hlt
            | succ k3 =>
              exact h2 k3 t hk hp
          · obtain ⟨k, t, hget, hpos, hj, ha, hbeat, hearly, hdom⟩ := h2
            have hba : ba < a := hbeat bi ba rfl
            refine Or.inr ⟨k + 1, t, hget, hpos, by omega, ha, ?_, ?_, ?_⟩
            · intro bi2 ba2 hb
              injection hb with hb
              injection hb with hb1 hb2
              rw [← hb2]
              exact hba
            · intro k2 t2 hk2lt hk2 hp
              cases k2 with
              | zero =>
                injection hk2 with hk2
                rw [← hk2]
                exact lt_of_le_of_lt (le_of_not_lt hlt) hba
              | succ k3 =>
                exact hearly k3 t2 (by omega) hk2 hp
            · intro k2 t2 hk2 hp
              cases k2 with
              | zero =>
                injection hk2 with hk2
                rw [← hk2]
                exact le_of_lt (lt_of_le_of_lt (le_of_not_lt hlt) hba)
              | succ k3 =>
                exact hdom k3 t2 hk2 hp
    · rw [if_neg hd] at h
      rcases ih (i0 + 1) best h with ⟨h1, h2⟩ | h2
      · refine Or.inl ⟨h1, ?_⟩
        intro k t hk hp
        cases k with
        | zero =>
          injection hk with hk
          rw [← hk] at hp
          exact absurd hp hd
        | succ k3 =>
          exact h2 k3 t hk hp
      · obtain ⟨k, t, hget, hpos, hj, ha, hbeat, hearly, hdom⟩ := h2
        refine Or.inr ⟨k + 1, t, hget, hpos, by omega, ha, hbeat, ?_, ?_⟩
        · intro k2 t2 hk2lt hk2 hp
          cases k2 with
          | zero =>
            injection hk2 with hk2
            rw [← hk2] at hp
            exact absurd hp hd
          | succ k3 =>
            exact hearly k3 t2 (by omega) hk2 hp
        · intro k2 t2 hk2 hp
          cases k2 with
          | zero =>
            injection hk2 with hk2
            rw [← hk2] at hp
            exact absurd hp hd
          | succ k3 =>
            exact hdom k3 t2 hk2 hp

theorem selectTargetIdx_spec (debts : List Debt) (j : ℕ)
    (h : selectTargetIdx debts = some j) :
    ∃ t, debts.get? j = some t ∧ 0 < t.balance ∧
      (∀ i di, debts.get? i = some di → 0 < di.balance → di.apr ≤ t.apr) ∧
      (∀ i di, i < j → debts.get? i = some di → 0 < di.balance →
        di.apr < t.apr) := by
  unfold selectTargetIdx at h
  cases hg : selectTargetGo debts 0 none with
  | none => rw [hg] at h; exact absurd h (by simp)
  | some p =>
    obtain ⟨j2, a⟩ := p
    rw [hg] at h
    simp only [Option.map_some', Option.some.injEq] at h
    subst h
    rcases selectTargetGo_spec debts 0 none j2 a hg with ⟨h1, _⟩ | h2
    · exact absurd h1 (by simp)
    · obtain ⟨k, t, hget, hpos, hj, ha, _, hearly, hdom⟩ := h2
      rw [Nat.zero_add] at hj
      subst hj
      refine ⟨t, hget, hpos, ?_, ?_⟩
      · intro i di hi hp
        have := hdom i di hi hp
        rw [← ha]
        exact this
      · intro i di hlt hi hp
        have := hearly i di hlt hi hp
        rw [← ha]
        exact this

theorem extraStep_effect (today : Date) (safe : ℚ) (s : SimState) (j : ℕ)
    (target : Debt) (h0 : 0 < safe) (hj : selectTargetIdx s.debts = some j)
    (hg : s.debts.get? j = some target)
    (hp : 0 < min safe target.balance) :
    extraStep today safe s =
      { s with
        balance := s.balance - min safe target.balance,
        debts := s.debts.set j
          (let t2 := applyPaymentToDebt target (min safe target.balance)
           if t2.balance ≤ 0 ∧ t2.paid_off_date = none then
             { t2 with paid_off_date := some today }
           else t2),
        sched := s.sched ++
          [{ date := today, type := .extra,
             description := "Extra payment to " ++ target.name,
             amount := -(min safe target.balance),
             balance := s.balance - min safe target.balance }] } := by
  unfold extraStep
  rw [if_pos h0]
  simp only [hj, hg]
  rw [if_pos hp]

/-- C4: when surplus is released, the avalanche target is a positive-balance
debt whose APR no positive-balance debt exceeds, and every positive-balance
debt earlier in the list has strictly smaller APR (Python's `max` returns
the first maximum); the whole payment `min safe balance` is applied to that
debt alone, the cash balance drops by exactly that payment, and one `extra`
entry is logged. -/
theorem avalanche_target_selection :
    (∀ (debts : List Debt) (j : ℕ), selectTargetIdx debts = some j →
      ∃ t, debts.get? j = some t ∧ 0 < t.balance ∧
        (∀ i di, debts.get? i = some di → 0 < di.balance → di.apr ≤ t.apr) ∧
        (∀ i di, i < j → debts.get? i = some di → 0 < di.balance →
          di.apr < t.apr)) ∧
    (∀ (today : Date) (safe : ℚ) (s : SimState) (j : ℕ) (target : Debt),
      0 < safe → selectTargetIdx s.debts = some j →
      s.debts.get? j = some target → 0 < min safe target.balance →
      extraStep today safe s =
        { s with
          balance := s.balance - min safe target.balance,
          debts := s.debts.set j
            (let t2 := applyPaymentToDebt target (min safe target.balance)
             if t2.balance ≤ 0 ∧ t2.paid_off_date = none then
               { t2 with paid_off_date := some today }
             else t2),
          sched := s.sched ++
            [{ date := today, type := .extra,
               description := "Extra payment to " ++ target.name,
               amount := -(min safe target.balance),
               balance := s.balance - min safe target.balance }] }) :=
  ⟨selectTargetIdx_spec, extraStep_effect⟩

theorem avalanche_target_selection_witness :
    (∃ t, [w4low, w4high].get? 1 = some t ∧ 0 < t.balance ∧
      (∀ i di, [w4low, w4high].get? i = some di → 0 < di.balance →
        di.apr ≤ t.apr) ∧
      (∀ i di, i < 1 → [w4low, w4high].get? i = some di → 0 < di.balance →
        di.apr < t.apr)) ∧
    extraStep ⟨2025,1,1⟩ 40
        { balance := 50, debts := [w4low, w4high], events := [],
          sched := [], negHit := none } =
      { balance := 10,
        debts := [w4low, { w4high with balance := 60 }],
        events := [],
        sched := [{ date := ⟨2025,1,1⟩, type := .extra,
                    description := "Extra payment to high", amount := -40,
                    balance := 10 }],
        negHit := none } := by
  constructor
  · exact avalanche_target_selection.1 [w4low, w4high] 1 (by decide)
  · rw [avalanche_target_selection.2 ⟨2025,1,1⟩ 40
      { balance := 50, debts := [w4low, w4high], events := [],
        sched := [], negHit := none } 1 w4high (by decide) (by decide)
      (by decide) (by decide)]
    decide

set_option maxRecDepth 200000 in
/-- C1 (code bug): with debug off and a sub-cent starting balance of 0.006,
the projector quantizes the balance up to 0.01, the extra avalanche step
pays 0.01 with no negativity check, and the run returns normally with a
logged running balance of -0.004 < 0. -/
theorem nonneg_balance_code_bug :
    daily_avalanche_schedule 10 ⟨2025,1,1⟩ (6/1000) [] [] [c1debt] [] 0 false =
      some (.ok (c1sched, c1res, none)) ∧
    ∃ e ∈ c1sched, e.balance < 0 := by
  constructor
  · decide
  · decide

theorem horizon_independence_filtered_witness :
    ([] : List ScheduleEntry) = List.filter
      (fun x => decide (Date.le x.date (addDays ⟨2025,1,1⟩ 1))) [] :=
  horizon_independence_filtered 10 ⟨2025,1,1⟩ 0 [] [] [] [] 1 2 false
    (by omega) (by omega) [] [] [] [] none none (by decide) (by decide)
